import Mathlib

/-!
# Verification of the tugo dynamic query / permission engine

Shallow embedding of the filter/sort/pagination parser, the SQL query
builder, the permission filter compiler and the permission checker of the
`tugo` repository, together with proofs of the behavioural claims about
them.

Conventions of the embedding:
* Go strings are Lean `String`s; all string manipulation is re-implemented
  with structural recursion over `String.data` so that every definition
  evaluates inside the kernel.
* Go maps that the code iterates over are embedded as association lists
  (`List (String × α)`); the list order stands for one possible iteration
  order, and every universally quantified theorem below holds for each
  such order.
* `interface{}` / JSON values are embedded as the tagged union `JSONValue`.
* Fallible Go functions returning `(T, error)` become `Except String T`
  (the `String` is the error message); functions that return a sentinel
  (empty string) keep that shape, exactly as the source does.
-/

namespace Tugo

/-! ## Basic string helpers (structural replacements for Go stdlib calls) -/

/-- Character class of Go's `strings.Split(s, ",")` loop: split a character
list at every comma.  `splitCommaAux cs acc` processes `cs` with `acc`
holding the (reversed) characters of the current segment. -/
def splitCommaAux : List Char → List Char → List String
  | [], acc => [acc.reverse.asString]
  | c :: cs, acc =>
    if c = ',' then acc.reverse.asString :: splitCommaAux cs []
    else splitCommaAux cs (c :: acc)

/-- Go `strings.Split(s, ",")`. -/
def splitComma (s : String) : List String :=
  splitCommaAux s.data []

/-- The character set trimmed by Go's `strings.TrimSpace` /
`unicode.IsSpace`. -/
def isGoSpace (c : Char) : Bool :=
  c = ' ' || c = '\t' || c = '\n' || c = '\x0b' || c = '\x0c' || c = '\r' ||
  c = '\u0085' || c = '\u00A0' || c = '\u1680' ||
  ('\u2000' ≤ c && c ≤ '\u200A') ||
  c = '\u2028' || c = '\u2029' || c = '\u202F' || c = '\u205F' || c = '\u3000'

/-- Go `strings.TrimSpace`. -/
def trimSpace (s : String) : String :=
  (((s.data.dropWhile isGoSpace).reverse.dropWhile isGoSpace).reverse).asString

/-- Go `strings.Join(parts, sep)`. -/
def joinSep (sep : String) : List String → String
  | [] => ""
  | [s] => s
  | s :: rest => s ++ sep ++ joinSep sep rest

/-! ## Identifier sanitizers (claim C4)

Two variants exist in the source:
* the strict one in `pkg/query` (`sanitizeIdentifier`), which matches the
  whole name against `^[a-zA-Z_][a-zA-Z0-9_]*$` and returns `""` on failure;
* the permissive one in `pkg/permission` (also called `sanitizeIdentifier`),
  which copies only the characters in `[a-zA-Z0-9_]` into the result.
-/

/-- A character allowed anywhere in an identifier: `[a-zA-Z0-9_]`. -/
def isIdentChar (c : Char) : Bool :=
  (('a' ≤ c && c ≤ 'z') || ('A' ≤ c && c ≤ 'Z') || ('0' ≤ c && c ≤ '9') || c = '_')

/-- A character allowed as the first identifier character: `[a-zA-Z_]`. -/
def isIdentStart (c : Char) : Bool :=
  (('a' ≤ c && c ≤ 'z') || ('A' ≤ c && c ≤ 'Z') || c = '_')

/-- Whether a character list matches `^[a-zA-Z_][a-zA-Z0-9_]*$`. -/
def matchesIdent : List Char → Bool
  | [] => false
  | c :: cs => isIdentStart c && cs.all isIdentChar

/-- `pkg/query.sanitizeIdentifier`: returns the name unchanged when it
matches `^[a-zA-Z_][a-zA-Z0-9_]*$`, otherwise the empty string. -/
def sanitizeIdentifier (name : String) : String :=
  if matchesIdent name.data then name else ""

/-- `pkg/permission.sanitizeIdentifier`: keeps only the characters in
`[a-zA-Z0-9_]` (a `strings.Builder` loop in the source). -/
def sanitizeIdentifierPermission (name : String) : String :=
  (name.data.filter isIdentChar).asString

/-! ## Filters and their SQL rendering (`pkg/query`, claims C1, C10) -/

/-- `query.FilterOperator` — the ten operators accepted by the parser. -/
inductive FilterOperator
  | eq | ne | gt | gte | lt | lte | like | inop | isNull | isNotNull
deriving DecidableEq, Repr

/-- The `operatorSQL` map (only consulted for the comparison operators in
`filterToSQL`'s default branch; `like`/`in`/`null`/`notnull` have their own
branches). -/
def operatorSQL : FilterOperator → String
  | .eq => "="
  | .ne => "!="
  | .gt => ">"
  | .gte => ">="
  | .lt => "<"
  | .lte => "<="
  | .like => "ILIKE"
  | .inop => "IN"
  | .isNull => "IS NULL"
  | .isNotNull => "IS NOT NULL"

/-- `query.Filter`.  The parser always stores the raw request string as
`Value` (Go: `interface{}` holding a `string`), and `filterToSQL` asserts
`.(string)` on the paths that read it, so the embedding types it as
`String`. -/
structure Filter where
  Field : String
  Operator : FilterOperator
  Value : String
deriving DecidableEq, Repr

/-- `query.filterToSQL`: one filter to a SQL fragment plus its positional
arguments, placeholders numbered from `paramNum`. -/
def filterToSQL (f : Filter) (paramNum : Nat) : String × List String :=
  let field := sanitizeIdentifier f.Field
  match f.Operator with
  | .isNull => (field ++ " IS NULL", [])
  | .isNotNull => (field ++ " IS NOT NULL", [])
  | .like => (field ++ " ILIKE $" ++ Nat.repr paramNum, ["%" ++ f.Value ++ "%"])
  | .inop =>
    let values := splitComma f.Value
    let placeholders :=
      (List.range values.length).map (fun i => "$" ++ Nat.repr (paramNum + i))
    (field ++ " IN (" ++ joinSep ", " placeholders ++ ")",
     values.map trimSpace)
  | op => (field ++ " " ++ operatorSQL op ++ " $" ++ Nat.repr paramNum, [f.Value])

/-- The loop body of `query.FiltersToSQL`: conditions and arguments of a
filter list, threading the placeholder counter. -/
def filtersToSQLAux : List Filter → Nat → List String × List String
  | [], _ => ([], [])
  | f :: fs, n =>
    let r := filterToSQL f n
    let rest := filtersToSQLAux fs (n + r.2.length)
    (r.1 :: rest.1, r.2 ++ rest.2)

/-- `query.FiltersToSQL`. -/
def FiltersToSQL (filters : List Filter) (startParam : Nat) : String × List String :=
  if filters.isEmpty then ("", [])
  else
    let r := filtersToSQLAux filters startParam
    (joinSep " AND " r.1, r.2)

/-! ## Sorts (`pkg/query`, used by claim C2) -/

/-- `query.SortDirection` (`"ASC"` / `"DESC"` in the source). -/
inductive SortDirection
  | asc | desc
deriving DecidableEq, Repr

/-- The string value of a `SortDirection` constant. -/
def SortDirection.str : SortDirection → String
  | .asc => "ASC"
  | .desc => "DESC"

/-- `query.Sort` (named `SortSpec` here because `Sort` is a Lean keyword). -/
structure SortSpec where
  Field : String
  Direction : SortDirection
deriving DecidableEq, Repr

/-- `query.SortsToSQL`.  Note the source allocates `parts` with
`make([]string, len(sorts))` and `continue`s on an unsanitizable field, so
such a slot stays the empty string but is still joined. -/
def SortsToSQL (sorts : List SortSpec) : String :=
  if sorts.isEmpty then ""
  else
    let parts := sorts.map fun s =>
      let field := sanitizeIdentifier s.Field
      if field = "" then "" else field ++ " " ++ s.Direction.str
    joinSep ", " parts

/-! ## Pagination (`pkg/query/builder.go`, claim C9) -/

/-- `query.Pagination`. -/
structure Pagination where
  Page : Int
  Limit : Int
  Offset : Int
deriving DecidableEq, Repr

/-- `query.DefaultPagination`. -/
def DefaultPagination : Pagination := ⟨1, 20, 0⟩

/-- Go `strconv.Atoi`: an optional sign followed by at least one ASCII
digit; anything else, or a value outside the 64-bit `int` range, is an
error (`none`). -/
def atoi (s : String) : Option Int :=
  let parse (sign : Int) (digits : List Char) : Option Int :=
    if digits.isEmpty || !digits.all Char.isDigit then none
    else
      let v : Int := sign * (digits.foldl (fun acc c => 10 * acc + (c.toNat - '0'.toNat)) 0 : Nat)
      if v < -(2 ^ 63) || v > 2 ^ 63 - 1 then none else some v
  match s.data with
  | [] => none
  | c :: rest =>
    if c = '+' then parse 1 rest
    else if c = '-' then parse (-1) rest
    else parse 1 (c :: rest)

/-- `query.ParsePagination`.  Defaults are kept on a missing key, an empty
value list, a parse error or a non-positive value; a positive limit above
100 is clamped to 100.  The function is total — it never reports an
error. -/
def ParsePagination (params : List (String × List String)) : Pagination :=
  let page : Int :=
    match params.lookup "page" with
    | some (s :: _) =>
      match atoi s with
      | some v => if v > 0 then v else DefaultPagination.Page
      | none => DefaultPagination.Page
    | _ => DefaultPagination.Page
  let limit : Int :=
    match params.lookup "limit" with
    | some (s :: _) =>
      match atoi s with
      | some v => if v > 0 then (if v > 100 then 100 else v) else DefaultPagination.Limit
      | none => DefaultPagination.Limit
    | _ => DefaultPagination.Limit
  { Page := page, Limit := limit, Offset := (page - 1) * limit }

/-! ## Query builder (`pkg/query/builder.go`, claim C2) -/

/-- `query.Builder`. -/
structure Builder where
  tableName : String
  selectCols : List String
  filters : List Filter
  sorts : List SortSpec
  pagination : Pagination
  paramOffset : Nat
deriving Repr

/-- `query.NewBuilder`. -/
def NewBuilder (tableName : String) : Builder :=
  { tableName := tableName
    selectCols := ["*"]
    filters := []
    sorts := []
    pagination := DefaultPagination
    paramOffset := 1 }

/-- `Builder.Where`. -/
def Builder.Where (b : Builder) (filters : List Filter) : Builder :=
  { b with filters := filters }

/-- `Builder.OrderBy`. -/
def Builder.OrderBy (b : Builder) (sorts : List SortSpec) : Builder :=
  { b with sorts := sorts }

/-- `Builder.Paginate`. -/
def Builder.Paginate (b : Builder) (p : Pagination) : Builder :=
  { b with pagination := p }

/-- `Builder.BuildSelect` (the SQL text and argument list it returns; the
source also advances `b.paramOffset` for a subsequent build on the same
builder, which single-statement claims do not observe). -/
def Builder.BuildSelect (b : Builder) : String × List String :=
  let base := "SELECT " ++ joinSep ", " b.selectCols ++ " FROM " ++ b.tableName
  let ww :=
    if b.filters.isEmpty then (base, ([] : List String))
    else
      let r := FiltersToSQL b.filters b.paramOffset
      if r.1 = "" then (base, []) else (base ++ " WHERE " ++ r.1, r.2)
  let withOrder :=
    if b.sorts.isEmpty then ww.1
    else
      let orderSQL := SortsToSQL b.sorts
      if orderSQL = "" then ww.1 else ww.1 ++ " ORDER BY " ++ orderSQL
  (withOrder ++ " LIMIT " ++ b.pagination.Limit.repr ++ " OFFSET " ++ b.pagination.Offset.repr,
   ww.2)

/-! ## Filter parser (`pkg/query`, claim C8) -/

/-- Splits a character list at every `':'` (used to embed the optional
`:op` group of the filter-key regular expression). -/
def splitColonAux : List Char → List Char → List (List Char)
  | [], acc => [acc.reverse]
  | c :: cs, acc =>
    if c = ':' then acc.reverse :: splitColonAux cs []
    else splitColonAux cs (c :: acc)

/-- Embedding of the regular expression
`^filter\[([a-zA-Z_][a-zA-Z0-9_]*)(?::([a-z]+))?\]$`: on a match, the
captured field and operator string (defaulted to `"eq"` when the `:op`
group is absent), otherwise `none`. -/
def matchFilterKey (key : String) : Option (String × String) :=
  let cs := key.data
  if "filter[".data.isPrefixOf cs && cs.getLast? = some ']' then
    let inner := (cs.drop 7).dropLast
    match splitColonAux inner [] with
    | [f] => if matchesIdent f then some (f.asString, "eq") else none
    | [f, o] =>
      if matchesIdent f && !o.isEmpty && o.all (fun c => 'a' ≤ c && c ≤ 'z') then
        some (f.asString, o.asString)
      else none
    | _ => none
  else none

/-- The `FilterOperator` denoted by an operator string, i.e. the lookup
`operatorSQL[FilterOperator(opStr)]` of the source: `none` exactly when the
operator is unknown. -/
def parseOp : String → Option FilterOperator
  | "eq" => some .eq
  | "ne" => some .ne
  | "gt" => some .gt
  | "gte" => some .gte
  | "lt" => some .lt
  | "lte" => some .lte
  | "like" => some .like
  | "in" => some .inop
  | "null" => some .isNull
  | "notnull" => some .isNotNull
  | _ => none

/-- `FilterParser.Parse` (`allowed` is the parser's `allowedFields` set,
kept as the caller-supplied list).  Keys that do not match the filter
pattern are skipped; a matched key with a disallowed field or an unknown
operator aborts with an `InvalidFilter` error message; a matched valid key
records `values[0]` (the embedding reads it with `headD ""`; `url.Values`
never maps a key to an empty slice). -/
def Parse (allowed : List String) : List (String × List String) → Except String (List Filter)
  | [] => .ok []
  | (key, values) :: rest =>
    match matchFilterKey key with
    | none => Parse allowed rest
    | some (field, opStr) =>
      if !allowed.isEmpty && !allowed.contains field then
        .error ("Field '" ++ field ++ "' is not allowed for filtering")
      else
        match parseOp opStr with
        | none => .error ("Unknown operator '" ++ opStr ++ "'")
        | some op =>
          match Parse allowed rest with
          | .error e => .error e
          | .ok fs => .ok (⟨field, op, values.headD ""⟩ :: fs)

/-- Specification-level extraction used to state C8: one `Filter` per
matched key with a known operator, in key order.  (This is the spec's
"exactly one `Filter{field, op, value}` per valid matched key", written
independently of `Parse`'s control flow.) -/
def specMatchedFilters (params : List (String × List String)) : List Filter :=
  params.filterMap fun kv =>
    match matchFilterKey kv.1 with
    | none => none
    | some (field, opStr) =>
      match parseOp opStr with
      | none => none
      | some op => some ⟨field, op, kv.2.headD ""⟩

/-- A matched key that `Parse` must reject: its field is outside a
non-empty allow-list, or its operator is unknown. -/
def invalidMatchedKey (allowed : List String) (kv : String × List String) : Prop :=
  ∃ field opStr, matchFilterKey kv.1 = some (field, opStr) ∧
    ((allowed ≠ [] ∧ field ∉ allowed) ∨ parseOp opStr = none)

instance (allowed : List String) (kv : String × List String) :
    Decidable (invalidMatchedKey allowed kv) := by
  unfold invalidMatchedKey
  rcases h : matchFilterKey kv.1 with _ | ⟨f, o⟩
  · exact .isFalse (by simp [h])
  · exact decidable_of_iff (((allowed ≠ [] ∧ f ∉ allowed) ∨ parseOp o = none))
      (by constructor
          · intro hx
            exact ⟨f, o, by simp [h], hx⟩
          · rintro ⟨f', o', hfo, hx⟩
            have h2 : (f, o) = (f', o') := Option.some_injective _ hfo
            rw [Prod.mk.injEq] at h2
            obtain ⟨h3, h4⟩ := h2
            subst h3
            subst h4
            exact hx)

/-! ## JSON values

Decoded JSON (`map[string]any` / `[]any` / scalars) as a tagged union.
Objects are association lists: the entry order stands for one iteration
order of the Go map, and every universal theorem holds for each order. -/

inductive JSONValue
  | str (s : String)
  | num (n : Int)
  | bool (b : Bool)
  | null
  | arr (elems : List JSONValue)
  | obj (fields : List (String × JSONValue))

/-- Go `fmt.Sprint` on a decoded JSON value, as used by the `_like` family
of the permission filter builder to build `%v%` patterns.  (Scalars render
as in Go; the composite renderings are simplified — no claim observes
them.) -/
def goSprint : JSONValue → String
  | .str s => s
  | .num n => n.repr
  | .bool b => if b then "true" else "false"
  | .null => "<nil>"
  | .arr _ => "[...]"
  | .obj _ => "map[...]"

/-! ## Permission filter builder (`pkg/permission` filter compiler, claim C3)

`FilterBuilder` carries a single mutable `paramOffset`; the embedding
threads it functionally: every function takes the offset and returns the
updated offset alongside its conditions and arguments.  Note the source
pre-increments: `fb.paramOffset++` happens *before* `$%d` is formatted, so
with offset `po` the next placeholder is `$(po+1)`. -/

/-- `FilterBuilder.buildOperatorCondition`'s loop over an operator map:
the produced condition fragments, arguments, and updated offset. -/
def buildOperatorList (po : Nat) : List (String × JSONValue) →
    List String × List JSONValue × Nat
  | [] => ([], [], po)
  | (op, value) :: rest =>
    let r : List String × List JSONValue × Nat :=
      match op with
      | "_eq" => (["= $" ++ Nat.repr (po + 1)], [value], po + 1)
      | "_ne" => (["!= $" ++ Nat.repr (po + 1)], [value], po + 1)
      | "_neq" => (["!= $" ++ Nat.repr (po + 1)], [value], po + 1)
      | "_gt" => (["> $" ++ Nat.repr (po + 1)], [value], po + 1)
      | "_gte" => ([">= $" ++ Nat.repr (po + 1)], [value], po + 1)
      | "_lt" => (["< $" ++ Nat.repr (po + 1)], [value], po + 1)
      | "_lte" => (["<= $" ++ Nat.repr (po + 1)], [value], po + 1)
      | "_in" =>
        match value with
        | .arr elems =>
          if elems.isEmpty then ([], [], po)
          else
            let phs := (List.range elems.length).map
              (fun i => "$" ++ Nat.repr (po + 1 + i))
            (["IN (" ++ joinSep ", " phs ++ ")"], elems, po + elems.length)
        | _ => ([], [], po)
      | "_nin" =>
        match value with
        | .arr elems =>
          if elems.isEmpty then ([], [], po)
          else
            let phs := (List.range elems.length).map
              (fun i => "$" ++ Nat.repr (po + 1 + i))
            (["NOT IN (" ++ joinSep ", " phs ++ ")"], elems, po + elems.length)
        | _ => ([], [], po)
      | "_not_in" =>
        match value with
        | .arr elems =>
          if elems.isEmpty then ([], [], po)
          else
            let phs := (List.range elems.length).map
              (fun i => "$" ++ Nat.repr (po + 1 + i))
            (["NOT IN (" ++ joinSep ", " phs ++ ")"], elems, po + elems.length)
        | _ => ([], [], po)
      | "_like" => (["ILIKE $" ++ Nat.repr (po + 1)], [.str ("%" ++ goSprint value ++ "%")], po + 1)
      | "_contains" => (["ILIKE $" ++ Nat.repr (po + 1)], [.str ("%" ++ goSprint value ++ "%")], po + 1)
      | "_nlike" => (["NOT ILIKE $" ++ Nat.repr (po + 1)], [.str ("%" ++ goSprint value ++ "%")], po + 1)
      | "_not_contains" => (["NOT ILIKE $" ++ Nat.repr (po + 1)], [.str ("%" ++ goSprint value ++ "%")], po + 1)
      | "_starts_with" => (["ILIKE $" ++ Nat.repr (po + 1)], [.str (goSprint value ++ "%")], po + 1)
      | "_ends_with" => (["ILIKE $" ++ Nat.repr (po + 1)], [.str ("%" ++ goSprint value)], po + 1)
      | "_null" =>
        match value with
        | .bool b => ([if b then "IS NULL" else "IS NOT NULL"], [], po)
        | _ => ([], [], po)
      | "_is_null" =>
        match value with
        | .bool b => ([if b then "IS NULL" else "IS NOT NULL"], [], po)
        | _ => ([], [], po)
      | "_nnull" => (["IS NOT NULL"], [], po)
      | "_is_not_null" => (["IS NOT NULL"], [], po)
      | "_between" =>
        match value with
        | .arr elems =>
          match elems with
          | [lo, hi] =>
            (["BETWEEN $" ++ Nat.repr (po + 1) ++ " AND $" ++ Nat.repr (po + 2)],
             [lo, hi], po + 2)
          | _ => ([], [], po)
        | _ => ([], [], po)
      | "_regex" => (["~ $" ++ Nat.repr (po + 1)], [value], po + 1)
      | "_iregex" => (["~* $" ++ Nat.repr (po + 1)], [value], po + 1)
      | _ => ([], [], po)
    let rest2 := buildOperatorList r.2.2 rest
    (r.1 ++ rest2.1, r.2.1 ++ rest2.2.1, rest2.2.2)

/-- `FilterBuilder.buildOperatorCondition` minus the field prefix: the
source formats `"%s OP ..."` with the sanitized field inline in every
branch; the embedding factors the `field ++ " "` prefix out (the resulting
strings are identical). -/
def buildOperatorCondition (po : Nat) (field : String) (ops : List (String × JSONValue)) :
    String × List JSONValue × Nat :=
  let sanitizedField := sanitizeIdentifierPermission field
  let r := buildOperatorList po ops
  if r.1.isEmpty then ("", [], r.2.2)
  else (joinSep " AND " (r.1.map (fun c => sanitizedField ++ " " ++ c)), r.2.1, r.2.2)

/-- `FilterBuilder.buildFieldCondition`. -/
def buildFieldCondition (po : Nat) (field : String) (value : JSONValue) :
    String × List JSONValue × Nat :=
  match value with
  | .obj opMap => buildOperatorCondition po field opMap
  | v =>
    (sanitizeIdentifierPermission field ++ " = $" ++ Nat.repr (po + 1), [v], po + 1)

mutual

/-- `FilterBuilder.buildConditions`: the root walk over a filter object. -/
def buildConditions (po : Nat) : List (String × JSONValue) →
    List String × List JSONValue × Nat
  | [] => ([], [], po)
  | (field, value) :: rest =>
    let r := buildConditionsEntry po field value
    let rest2 := buildConditions r.2.2 rest
    (r.1 ++ rest2.1, r.2.1 ++ rest2.2.1, rest2.2.2)

/-- One iteration of `buildConditions`' loop: the `_and` / `_or` /
field-condition dispatch, including the `!= ""` guards that drop empty
fragments (and their arguments) but keep the advanced offset. -/
def buildConditionsEntry (po : Nat) (field : String) (value : JSONValue) :
    List String × List JSONValue × Nat :=
  match field, value with
  | "_and", .arr andFilters =>
    -- `buildAndConditions` returns "" exactly when it collected nothing
    let r := collectAndConditions po andFilters
    if r.1.isEmpty then ([], [], r.2.2)
    else (["(" ++ joinSep " AND " r.1 ++ ")"], r.2.1, r.2.2)
  | "_or", .arr orFilters =>
    let r := collectOrConditions po orFilters
    if r.1.isEmpty then ([], [], r.2.2)
    else (["(" ++ joinSep " OR " r.1 ++ ")"], r.2.1, r.2.2)
  | "_and", _ => ([], [], po)  -- value not a []any: type assertion fails, skipped
  | "_or", _ => ([], [], po)
  | f, v =>
    let r := buildFieldCondition po f v
    if r.1 = "" then ([], [], r.2.2) else ([r.1], r.2.1, r.2.2)

/-- The collection loop of `FilterBuilder.buildAndConditions`: child
conditions are flattened into one list (joined with `" AND "` by the
caller); non-object children are skipped. -/
def collectAndConditions (po : Nat) : List JSONValue →
    List String × List JSONValue × Nat
  | [] => ([], [], po)
  | .obj m :: rest =>
    let r := buildConditions po m
    let rest2 := collectAndConditions r.2.2 rest
    (r.1 ++ rest2.1, r.2.1 ++ rest2.2.1, rest2.2.2)
  | _ :: rest => collectAndConditions po rest

/-- The collection loop of `FilterBuilder.buildOrConditions`: each
object child with a non-empty condition list is parenthesized (its inner
conditions joined with `" AND "`); children yielding nothing are
skipped. -/
def collectOrConditions (po : Nat) : List JSONValue →
    List String × List JSONValue × Nat
  | [] => ([], [], po)
  | .obj m :: rest =>
    let r := buildConditions po m
    let rest2 := collectOrConditions r.2.2 rest
    if r.1.isEmpty then (rest2.1, rest2.2.1, rest2.2.2)
    else (("(" ++ joinSep " AND " r.1 ++ ")") :: rest2.1, r.2.1 ++ rest2.2.1, rest2.2.2)
  | _ :: rest => collectOrConditions po rest

end

/-- `FilterBuilder.Build` for a builder created with
`NewFilterBuilder paramOffset`: the WHERE-clause text and its ordered
arguments. -/
def FilterBuilderBuild (paramOffset : Nat) (filter : List (String × JSONValue)) :
    String × List JSONValue :=
  if filter.isEmpty then ("", [])
  else
    let r := buildConditions paramOffset filter
    if r.1.isEmpty then ("", [])
    else (joinSep " AND " r.1, r.2.1)

/-! ## Permission checker (`pkg/permission/checker.go`, claims C5, C6, C7) -/

/-- `permission.Action` is a string type in the source; the constants are
`"create"`, `"read"`, `"update"`, `"delete"`. -/
abbrev Action := String

/-- `permission.ActionCreate`. -/
def ActionCreate : Action := "create"

/-- `permission.ActionRead`. -/
def ActionRead : Action := "read"

/-- `permission.ActionUpdate`. -/
def ActionUpdate : Action := "update"

/-- `permission.ActionDelete`. -/
def ActionDelete : Action := "delete"

/-- `auth.User` — the fields the permission checker reads. -/
structure User where
  ID : String
  Username : String
  Email : String
  Role : String
  RoleID : String
deriving DecidableEq, Repr

/-- `permission.FieldPermissions`. -/
structure FieldPermissions where
  Allowed : List String
  Denied : List String
  ReadOnly : List String
deriving DecidableEq, Repr

/-- A parsed policy as the checker consumes it after `ParsePolicy`:
the decoded filter tree, field permissions and presets.  (`FilterMap` is
`none` when the policy has no filter JSON, matching Go's `nil` map.) -/
structure ParsedPolicy where
  FilterMap : Option (List (String × JSONValue))
  FieldPermissionsMap : FieldPermissions
  PresetsMap : List (String × JSONValue)

/-- `permission.CheckResult`. -/
structure CheckResult where
  Allowed : Bool
  Filter : Option (List (String × JSONValue))
  FieldPerms : FieldPermissions
  Presets : List (String × JSONValue)
  Reason : String

/-- `Checker.resolveVariable`: the `$`-variable table.  Any string not in
the table passes through unchanged. -/
def resolveVariable (value : String) (user : User) : JSONValue :=
  match value with
  | "$USER_ID" => .str user.ID
  | "$CURRENT_USER" => .str user.ID
  | "$ROLE_ID" => .str user.RoleID
  | "$CURRENT_ROLE" => .str user.RoleID
  | "$ROLE" => .str user.Role
  | "$ROLE_NAME" => .str user.Role
  | "$USERNAME" => .str user.Username
  | "$EMAIL" => .str user.Email
  | _ => .str value

mutual

/-- `Checker.resolveValue`: strings go through `resolveVariable`, maps and
lists recurse, everything else passes through. -/
def resolveValue (value : JSONValue) (user : User) : JSONValue :=
  match value with
  | .str s => resolveVariable s user
  | .obj fields => .obj (resolveObj fields user)
  | .arr elems => .arr (resolveArr elems user)
  | v => v

/-- The map recursion of `resolveValue`. -/
def resolveObj (fields : List (String × JSONValue)) (user : User) :
    List (String × JSONValue) :=
  match fields with
  | [] => []
  | (k, v) :: rest => (k, resolveValue v user) :: resolveObj rest user

/-- The list recursion of `resolveValue`. -/
def resolveArr (elems : List JSONValue) (user : User) : List JSONValue :=
  match elems with
  | [] => []
  | v :: rest => resolveValue v user :: resolveArr rest user

end

/-- `Checker.resolveFilterVariables`: `nil` filters stay `nil`; otherwise
each top-level value is resolved. -/
def resolveFilterVariables (filter : Option (List (String × JSONValue))) (user : User) :
    Option (List (String × JSONValue)) :=
  match filter with
  | none => none
  | some m => some (resolveObj m user)

/-- The empty `FieldPermissions` (Go zero value). -/
def emptyFieldPermissions : FieldPermissions := ⟨[], [], []⟩

/-- A policy source: what `Checker.getPolicy` returns for
`(roleID, collection, action)`, whether it comes from the per-role cache or
from the policy store.  `Check` is parameterized over it so that theorems
can quantify over every cache/store content. -/
abbrev PolicySource := String → String → Action → Option ParsedPolicy

/-- `Checker.Check`: authentication gate, admin bypass, policy lookup with
`"*"` wildcard fallback, then variable resolution. -/
def Check (user? : Option User) (collection : String) (action : Action)
    (source : PolicySource) : CheckResult :=
  match user? with
  | none =>
    { Allowed := false, Filter := none, FieldPerms := emptyFieldPermissions,
      Presets := [], Reason := "user not authenticated" }
  | some user =>
    if user.Role = "admin" then
      { Allowed := true, Filter := none, FieldPerms := emptyFieldPermissions,
        Presets := [], Reason := "" }
    else
      let policy? :=
        match source user.RoleID collection action with
        | some p => some p
        | none => source user.RoleID "*" action
      match policy? with
      | none =>
        { Allowed := false, Filter := none, FieldPerms := emptyFieldPermissions,
          Presets := [],
          Reason := "no permission for " ++ action ++ " on " ++ collection }
      | some parsed =>
        { Allowed := true
          Filter := resolveFilterVariables parsed.FilterMap user
          FieldPerms := parsed.FieldPermissionsMap
          Presets := parsed.PresetsMap
          Reason := "" }

/-- `Checker.checkFieldPermissions`: the first offending field of the
payload produces an error message (`none` = no violation). -/
def checkFieldPermissions (data : List (String × JSONValue))
    (perms : FieldPermissions) (action : Action) : Option String :=
  match data with
  | [] => none
  | (key, _) :: rest =>
    if perms.Denied.contains key then
      some ("field '" ++ key ++ "' is not allowed")
    else if action ≠ ActionRead && perms.ReadOnly.contains key then
      some ("field '" ++ key ++ "' is read-only")
    else if !perms.Allowed.isEmpty && !perms.Allowed.contains key then
      some ("field '" ++ key ++ "' is not in allowed list")
    else checkFieldPermissions rest perms action

/-- `Checker.resolvePresetValue`. -/
def resolvePresetValue (value : JSONValue) (user : User) : JSONValue :=
  match value with
  | .str s => resolveVariable s user
  | v => v

/-- The preset loop of `CheckWithData` on `create`: presets whose key is
absent from the payload are injected with their resolved value (the source
mutates the `data` map in place; the embedding returns the updated map). -/
def applyPresets (data : List (String × JSONValue))
    (presets : List (String × JSONValue)) (user : User) :
    List (String × JSONValue) :=
  match presets with
  | [] => data
  | (key, value) :: rest =>
    let data' :=
      if (data.lookup key).isSome then data
      else data ++ [(key, resolvePresetValue value user)]
    applyPresets data' rest user

/-- `Checker.CheckWithData`: `Check`, then field-permission validation,
then preset injection on `create`.  Returns the result together with the
(possibly preset-extended) payload map. -/
def CheckWithData (user? : Option User) (collection : String) (action : Action)
    (data : List (String × JSONValue)) (source : PolicySource) :
    CheckResult × List (String × JSONValue) :=
  let result := Check user? collection action source
  if !result.Allowed then (result, data)
  else
    match checkFieldPermissions data result.FieldPerms action with
    | some errMsg =>
      ({ Allowed := false, Filter := none, FieldPerms := emptyFieldPermissions,
         Presets := [], Reason := errMsg }, data)
    | none =>
      if action = ActionCreate && !result.Presets.isEmpty then
        (result, applyPresets data result.Presets (user?.getD ⟨"", "", "", "", ""⟩))
      else (result, data)

/-- `Checker.FilterAllowedFields`: the read-path projection.  Note the
early return: with both `Allowed` and `Denied` empty the payload is
returned unchanged — `ReadOnly` is not consulted on that path. -/
def FilterAllowedFields (data : List (String × JSONValue))
    (perms : FieldPermissions) (action : Action) : List (String × JSONValue) :=
  if perms.Allowed.isEmpty && perms.Denied.isEmpty then data
  else
    data.filter fun kv =>
      !(perms.Denied.contains kv.1) &&
      !(action ≠ ActionRead && perms.ReadOnly.contains kv.1) &&
      !(!perms.Allowed.isEmpty && !perms.Allowed.contains kv.1)

/-! ## Placeholder scanning

To state C1 and C3 about the *generated SQL text*, `scanPH` extracts the
placeholder tokens of a string: every maximal non-empty digit run directly
following a `'$'`, in order of appearance.  `phTokens s k` is the expected
token list for the contiguous placeholders `$s, $(s+1), …, $(s+k-1)`. -/

/-- The placeholder tokens of a SQL text: each maximal digit run directly
following a dollar sign, as a string, in order of appearance. -/
def scanPH : List Char → List String
  | [] => []
  | c :: rest =>
    if c = '$' then
      let ds := rest.takeWhile Char.isDigit
      if ds.isEmpty then scanPH rest
      else ds.asString :: scanPH (rest.dropWhile Char.isDigit)
    else scanPH rest
termination_by l => l.length
decreasing_by
  · simp
  · simp only [List.length_cons]
    refine Nat.lt_succ_of_le ?_
    have hle : ∀ l : List Char, (l.dropWhile Char.isDigit).length ≤ l.length := by
      intro l
      induction l with
      | nil => simp
      | cons a l ih =>
        rw [List.dropWhile_cons]
        split
        · exact Nat.le_succ_of_le ih
        · exact Nat.le_refl _
    exact hle _
  · simp

/-- The decimal renderings of `s, s+1, …, s+k-1`: the expected placeholder
tokens of a fragment holding `k` arguments numbered from `s`. -/
def phTokens (s k : Nat) : List String :=
  (List.range' s k).map (fun m => Nat.repr m)

/-- The first character (if any) is not a digit — the condition under
which a following text cannot extend a placeholder token. -/
def HeadNotDigit : List Char → Prop
  | [] => True
  | c :: _ => c.isDigit = false

/-- A SQL fragment `c` whose placeholder tokens are exactly
`$s … $(s+k-1)`, robustly under any non-digit-led continuation. -/
def ScanStr (c : String) (s k : Nat) : Prop :=
  ∀ b : List Char, HeadNotDigit b → scanPH (c.data ++ b) = phTokens s k ++ scanPH b

/-- A list of SQL fragments that consume the contiguous placeholder range
`$s … $(s+k-1)` in order, fragment by fragment. -/
def ScanSeq : List String → Nat → Nat → Prop
  | [], _, k => k = 0
  | c :: cs, s, k => ∃ k1 k2, k = k1 + k2 ∧ ScanStr c s k1 ∧ ScanSeq cs (s + k1) k2

/-- A separator that can be spliced between fragments without disturbing
placeholder tokens: non-empty, free of `'$'`, not starting with a digit. -/
def SepOK (sep : String) : Prop :=
  sep.data ≠ [] ∧ '$' ∉ sep.data ∧ HeadNotDigit sep.data

/-- A field the field-permission check objects to: denied, read-only on a
write, or absent from a non-empty allow-list. -/
def fieldViolation (perms : FieldPermissions) (action : Action) (k : String) : Prop :=
  k ∈ perms.Denied ∨ (action ≠ ActionRead ∧ k ∈ perms.ReadOnly) ∨
  (perms.Allowed ≠ [] ∧ k ∉ perms.Allowed)

instance (perms : FieldPermissions) (action : Action) (k : String) :
    Decidable (fieldViolation perms action k) := by
  unfold fieldViolation
  infer_instance

/-- Invariant for the list-of-conditions builders. -/
def ScanOK (po : Nat) (r : List String × List JSONValue × Nat) : Prop :=
  r.2.2 = po + r.2.1.length ∧ ScanSeq r.1 (po + 1) r.2.1.length

/-- Invariant for the single-condition builders (`""` marks "nothing
emitted", in which case no argument is emitted either). -/
def ScanOKStr (po : Nat) (r : String × List JSONValue × Nat) : Prop :=
  r.2.2 = po + r.2.1.length ∧ (r.1 ≠ "" → ScanStr r.1 (po + 1) r.2.1.length) ∧
  (r.1 = "" → r.2.1 = [])


/-! ## General string helpers for the proofs -/

/-- Strings are equal when their character lists are. -/
theorem string_data_ext {s t : String} (h : s.data = t.data) : s = t := by
  cases s
  cases t
  cases h
  rfl

/-- A concatenation is empty exactly when both halves are. -/
theorem append_eq_empty_iff (s t : String) : s ++ t = "" ↔ s = "" ∧ t = "" := by
  cases s with | mk a =>
  cases t with | mk b =>
  constructor
  · intro h
    have hd : a ++ b = [] := congrArg String.data h
    rcases List.append_eq_nil.mp hd with ⟨h1, h2⟩
    exact ⟨congrArg String.mk h1, congrArg String.mk h2⟩
  · rintro ⟨h1, h2⟩
    have e1 : a = [] := congrArg String.data h1
    have e2 : b = [] := congrArg String.data h2
    subst e1
    subst e2
    rfl

/-! ## Claim C4 — the two identifier sanitizers -/

/-- An identifier-start character is in particular an identifier
character. -/
theorem isIdentChar_of_isIdentStart {c : Char} (h : isIdentStart c = true) :
    isIdentChar c = true := by
  simp only [isIdentStart, Bool.or_eq_true] at h
  simp only [isIdentChar, Bool.or_eq_true]
  tauto

/-- C4, counterexample.  The claim states that the permissive sanitizer of
the permission package returns the empty string for `"id; DROP TABLE x"`,
`"a.b"` and `"123abc"`.  It does not: it strips the disallowed characters
and returns the remainder, and `"123abc"` (whose characters are all in
`[a-zA-Z0-9_]`) is returned unchanged. -/
theorem C4_counterexample :
    sanitizeIdentifierPermission "a.b" = "ab" ∧
    sanitizeIdentifierPermission "id; DROP TABLE x" = "idDROPTABLEx" ∧
    sanitizeIdentifierPermission "123abc" = "123abc" ∧
    ("ab" : String) ≠ "" ∧ ("idDROPTABLEx" : String) ≠ "" ∧
    ("123abc" : String) ≠ "" := by
  refine ⟨rfl, rfl, rfl, ?_, ?_, ?_⟩ <;> decide

/-- C4, amended.  The strict sanitizer of the query package returns its
input unchanged when it matches `^[A-Za-z_][A-Za-z0-9_]*$` and the empty
string otherwise — in particular it rejects `"id; DROP TABLE x"`, `"a.b"`
and `"123abc"` and accepts `"user_id"` and `"_private"` unchanged.  The
permissive sanitizer of the permission package instead removes every
character outside `[A-Za-z0-9_]`: it also returns names matching the
pattern unchanged (including `"user_id"` and `"_private"`), but maps
`"id; DROP TABLE x"` to `"idDROPTABLEx"`, `"a.b"` to `"ab"`, and returns
`"123abc"` unchanged. -/
theorem C4_sanitizers (name : String) :
    (matchesIdent name.data = true →
      sanitizeIdentifier name = name ∧ sanitizeIdentifierPermission name = name) ∧
    (matchesIdent name.data = false → sanitizeIdentifier name = "") ∧
    (sanitizeIdentifierPermission name).data = name.data.filter isIdentChar ∧
    sanitizeIdentifier "id; DROP TABLE x" = "" ∧
    sanitizeIdentifier "a.b" = "" ∧
    sanitizeIdentifier "123abc" = "" ∧
    sanitizeIdentifier "user_id" = "user_id" ∧
    sanitizeIdentifier "_private" = "_private" ∧
    sanitizeIdentifierPermission "user_id" = "user_id" ∧
    sanitizeIdentifierPermission "_private" = "_private" := by
  refine ⟨?_, ?_, ?_, rfl, rfl, rfl, rfl, rfl, rfl, rfl⟩
  · intro h
    constructor
    · simp [sanitizeIdentifier, h]
    · refine string_data_ext ?_
      show (name.data.filter isIdentChar).asString.data = name.data
      have : name.data.filter isIdentChar = name.data := by
        apply List.filter_eq_self.mpr
        intro c hc
        match hn : name.data, h with
        | c0 :: rest, h =>
          rw [hn] at hc
          simp only [matchesIdent, Bool.and_eq_true] at h
          rcases List.mem_cons.mp hc with h1 | h1
          · subst h1
            exact isIdentChar_of_isIdentStart h.1
          · exact List.all_eq_true.mp h.2 _ h1
      rw [this]
      rfl
  · intro h
    simp [sanitizeIdentifier, h]
  · rfl

/-- C4 witness: evaluating the amended theorem at `"user_id"`. -/
theorem C4_sanitizers_witness :
    matchesIdent "user_id".data = true ∧
    (sanitizeIdentifier "user_id" = "user_id" ∧
      sanitizeIdentifierPermission "user_id" = "user_id") :=
  ⟨by decide, (C4_sanitizers "user_id").1 (by decide)⟩

/-! ## Claim C9 — pagination normalization -/

/-- C9.  `limit=500` clamps to 100, `limit=0` and non-numeric limits fall
back to the default 20, `page=0` and non-numeric pages fall back to the
default 1 — all silently (`ParsePagination` is total, there is no error
path).  For every input the returned limit lies in `[1, 100]`, the page is
at least 1, and `Offset = (Page - 1) * Limit`. -/
theorem C9_pagination :
    ParsePagination [("limit", ["500"])] = ⟨1, 100, 0⟩ ∧
    ParsePagination [("limit", ["0"])] = ⟨1, 20, 0⟩ ∧
    ParsePagination [("limit", ["abc"])] = ⟨1, 20, 0⟩ ∧
    ParsePagination [("page", ["0"]), ("limit", ["10"])] = ⟨1, 10, 0⟩ ∧
    ParsePagination [("page", ["zz"])] = ⟨1, 20, 0⟩ ∧
    ParsePagination [] = ⟨1, 20, 0⟩ ∧
    ∀ params : List (String × List String),
      1 ≤ (ParsePagination params).Page ∧
      1 ≤ (ParsePagination params).Limit ∧
      (ParsePagination params).Limit ≤ 100 ∧
      (ParsePagination params).Offset =
        ((ParsePagination params).Page - 1) * (ParsePagination params).Limit := by
  refine ⟨by decide, by decide, by decide, by decide, by decide, by decide, ?_⟩
  intro params
  unfold ParsePagination
  refine ⟨?_, ?_, ?_, rfl⟩ <;>
  · dsimp only
    repeat' split
    all_goals first
      | omega
      | (simp only [DefaultPagination]; omega)

/-! ## Claim C10 — `in` filter with an empty raw value -/

/-- C10.  `strings.Split("", ",")` yields the one-element slice `[""]`, so
an `in` filter whose raw value is empty emits `<field> IN ($n)` — a single
placeholder bound to the empty-string argument.  `filterToSQL` is total:
the filter is never rejected, and the degenerate `IN ()` is never
produced. -/
theorem C10_in_empty_value (fld : String) (n : Nat) :
    filterToSQL ⟨fld, .inop, ""⟩ n =
      (sanitizeIdentifier fld ++ " IN ($" ++ Nat.repr n ++ ")", [""]) := by
  have h2 : trimSpace "" = "" := rfl
  have hr : List.range 1 = [0] := rfl
  unfold filterToSQL
  simp only [splitComma, splitCommaAux, List.reverse_nil, List.length_cons,
    List.length_nil, hr, List.map_cons, List.map_nil, Nat.add_zero,
    joinSep, h2]
  rw [Prod.mk.injEq]
  refine ⟨string_data_ext ?_, rfl⟩
  simp [String.data_append]

/-! ## Claim C2 — end-to-end SELECT construction -/

/-- C2.  A fresh builder for `products` with filters
`[{status, eq, "active"}, {price, gt, "100"}]`, sort
`[{created_at, desc}]` and pagination `page=2, limit=10` produces exactly
the claimed SQL text and argument list. -/
theorem C2_build_select :
    ((((NewBuilder "products").Where
        [⟨"status", .eq, "active"⟩, ⟨"price", .gt, "100"⟩]).OrderBy
        [⟨"created_at", .desc⟩]).Paginate
        (ParsePagination [("page", ["2"]), ("limit", ["10"])])).BuildSelect =
      ("SELECT * FROM products WHERE status = $1 AND price > $2 ORDER BY created_at DESC LIMIT 10 OFFSET 10",
       ["active", "100"]) := by
  decide

/-! ## Claim C6 — admin bypass -/

/-- C6.  For a user whose role is `"admin"`, `Check` answers
`Allowed = true` with a `nil` row filter, empty field permissions and no
presets — and the answer is the same for every policy source, i.e. neither
the cache nor the store is consulted. -/
theorem C6_admin_bypass (user : User) (collection : String) (action : Action)
    (source source' : PolicySource) (h : user.Role = "admin") :
    Check (some user) collection action source =
      { Allowed := true, Filter := none, FieldPerms := emptyFieldPermissions,
        Presets := [], Reason := "" } ∧
    Check (some user) collection action source =
      Check (some user) collection action source' := by
  constructor <;> simp [Check, h]

/-- C6 witness: a concrete admin user checked against a policy source that
stores a denying policy and against one that stores nothing. -/
theorem C6_admin_bypass_witness :
    (("admin" : String) = "admin") ∧
    (Check (some ⟨"u1", "alice", "a@x", "admin", "r1"⟩) "posts" ActionDelete
        (fun _ _ _ => some ⟨some [("id", .str "none")], ⟨[], ["id"], []⟩, []⟩) =
      { Allowed := true, Filter := none, FieldPerms := emptyFieldPermissions,
        Presets := [], Reason := "" } ∧
      Check (some ⟨"u1", "alice", "a@x", "admin", "r1"⟩) "posts" ActionDelete
          (fun _ _ _ => some ⟨some [("id", .str "none")], ⟨[], ["id"], []⟩, []⟩) =
        Check (some ⟨"u1", "alice", "a@x", "admin", "r1"⟩) "posts" ActionDelete
          (fun _ _ _ => none)) :=
  ⟨rfl, C6_admin_bypass ⟨"u1", "alice", "a@x", "admin", "r1"⟩ "posts" ActionDelete
      _ _ rfl⟩

/-! ## Claim C7 — variable resolution -/

/-- C7, counterexample.  The claim's variable list is `$USER_ID`,
`$ROLE_ID`, `$ROLE`/`$ROLE_NAME`, `$USERNAME`, `$EMAIL`, with "every other
string passes through unchanged" — but the source also resolves
`$CURRENT_USER` (to the user's ID) and `$CURRENT_ROLE` (to the role ID),
so the string `"$CURRENT_USER"` does not pass through unchanged. -/
theorem C7_counterexample :
    ("$CURRENT_USER" ∉ ["$USER_ID", "$ROLE_ID", "$ROLE", "$ROLE_NAME",
      "$USERNAME", "$EMAIL"]) ∧
    resolveVariable "$CURRENT_USER" ⟨"u1", "bob", "b@x", "editor", "r9"⟩ =
      .str "u1" ∧
    resolveVariable "$CURRENT_USER" ⟨"u1", "bob", "b@x", "editor", "r9"⟩ ≠
      .str "$CURRENT_USER" := by
  refine ⟨by decide, rfl, ?_⟩
  intro h
  have h2 : ("u1" : String) = "$CURRENT_USER" := by
    injection h
  exact absurd h2 (by decide)

/-- C7, amended.  Variable resolution replaces `$USER_ID` and
`$CURRENT_USER` with the user's ID, `$ROLE_ID` and `$CURRENT_ROLE` with
the role ID, `$ROLE`/`$ROLE_NAME` with the role, `$USERNAME` with the
username and `$EMAIL` with the email; every string outside these eight
names passes through unchanged; resolution recurses through nested maps
and lists and leaves non-string scalars untouched; and the policy filter
`{"author_id": "$USER_ID"}` resolves to `{"author_id": user.ID}`. -/
theorem C7_resolution (u : User) (s : String) :
    (resolveVariable "$USER_ID" u = .str u.ID ∧
     resolveVariable "$CURRENT_USER" u = .str u.ID ∧
     resolveVariable "$ROLE_ID" u = .str u.RoleID ∧
     resolveVariable "$CURRENT_ROLE" u = .str u.RoleID ∧
     resolveVariable "$ROLE" u = .str u.Role ∧
     resolveVariable "$ROLE_NAME" u = .str u.Role ∧
     resolveVariable "$USERNAME" u = .str u.Username ∧
     resolveVariable "$EMAIL" u = .str u.Email) ∧
    (s ∉ ["$USER_ID", "$CURRENT_USER", "$ROLE_ID", "$CURRENT_ROLE", "$ROLE",
        "$ROLE_NAME", "$USERNAME", "$EMAIL"] →
      resolveVariable s u = .str s) ∧
    (∀ fields, resolveValue (.obj fields) u =
      .obj (fields.map fun kv => (kv.1, resolveValue kv.2 u))) ∧
    (∀ elems, resolveValue (.arr elems) u =
      .arr (elems.map fun v => resolveValue v u)) ∧
    (∀ n : Int, resolveValue (.num n) u = .num n) ∧
    (∀ b : Bool, resolveValue (.bool b) u = .bool b) ∧
    resolveValue .null u = .null ∧
    resolveFilterVariables (some [("author_id", .str "$USER_ID")]) u =
      some [("author_id", .str u.ID)] := by
  have hobj : ∀ fields, resolveObj fields u =
      fields.map fun kv => (kv.1, resolveValue kv.2 u) := by
    intro fields
    induction fields with
    | nil => rfl
    | cons kv rest ih =>
      cases kv
      simp [resolveObj, ih]
  have harr : ∀ elems, resolveArr elems u = elems.map fun v => resolveValue v u := by
    intro elems
    induction elems with
    | nil => rfl
    | cons v rest ih => simp [resolveArr, ih]
  refine ⟨⟨rfl, rfl, rfl, rfl, rfl, rfl, rfl, rfl⟩, ?_, ?_, ?_,
    fun _ => rfl, fun _ => rfl, rfl, ?_⟩
  · intro h
    simp only [List.mem_cons, List.mem_singleton, not_or] at h
    obtain ⟨h1, h2, h3, h4, h5, h6, h7, h8, -⟩ := h
    unfold resolveVariable
    split <;> simp_all
  · intro fields
    simp [resolveValue, hobj]
  · intro elems
    simp [resolveValue, harr]
  · simp [resolveFilterVariables, resolveObj, resolveValue, resolveVariable]

/-- C7 witness: the amended theorem evaluated for a concrete user and the
unrecognized string `"draft"`. -/
theorem C7_resolution_witness :
    (("draft" : String) ∉ ["$USER_ID", "$CURRENT_USER", "$ROLE_ID",
      "$CURRENT_ROLE", "$ROLE", "$ROLE_NAME", "$USERNAME", "$EMAIL"]) ∧
    resolveVariable "draft" ⟨"u1", "bob", "b@x", "editor", "r9"⟩ = .str "draft" :=
  ⟨by decide,
   (C7_resolution ⟨"u1", "bob", "b@x", "editor", "r9"⟩ "draft").2.1 (by decide)⟩

/-! ## Claim C5 — field-level enforcement -/

/-- If the payload contains a denied field, or a read-only field while the
action is a write, `checkFieldPermissions` reports an error naming an
offending field of the payload. -/
theorem checkFieldPermissions_rejects (data : List (String × JSONValue))
    (perms : FieldPermissions) (action : Action)
    (h : ∃ kv ∈ data, kv.1 ∈ perms.Denied ∨
      (action ≠ ActionRead ∧ kv.1 ∈ perms.ReadOnly)) :
    ∃ k, (∃ v, (k, v) ∈ data) ∧ fieldViolation perms action k ∧
      (checkFieldPermissions data perms action =
          some ("field '" ++ k ++ "' is not allowed") ∨
       checkFieldPermissions data perms action =
          some ("field '" ++ k ++ "' is read-only") ∨
       checkFieldPermissions data perms action =
          some ("field '" ++ k ++ "' is not in allowed list")) := by
  induction data with
  | nil => simp at h
  | cons kv rest ih =>
    obtain ⟨key, v⟩ := kv
    by_cases hd : key ∈ perms.Denied
    · exact ⟨key, ⟨v, List.mem_cons_self _ _⟩, Or.inl hd,
        Or.inl (by simp [checkFieldPermissions, hd])⟩
    · by_cases hro : action ≠ ActionRead ∧ key ∈ perms.ReadOnly
      · refine ⟨key, ⟨v, List.mem_cons_self _ _⟩, Or.inr (Or.inl hro),
          Or.inr (Or.inl ?_)⟩
        simp [checkFieldPermissions, hd, hro.1, hro.2]
      · by_cases hal : perms.Allowed ≠ [] ∧ key ∉ perms.Allowed
        · refine ⟨key, ⟨v, List.mem_cons_self _ _⟩, Or.inr (Or.inr hal),
            Or.inr (Or.inr ?_)⟩
          simp [checkFieldPermissions, hd, hro, hal.1, hal.2]
        · have hrest : ∃ kv ∈ rest, kv.1 ∈ perms.Denied ∨
              (action ≠ ActionRead ∧ kv.1 ∈ perms.ReadOnly) := by
            rcases h with ⟨kv2, hmem, hviol⟩
            rcases List.mem_cons.mp hmem with heq | hmem2
            · exfalso
              subst heq
              rcases hviol with h1 | h1
              · exact hd h1
              · exact hro h1
            · exact ⟨kv2, hmem2, hviol⟩
          obtain ⟨k, ⟨v2, hv2⟩, hviol, hres⟩ := ih hrest
          refine ⟨k, ⟨v2, List.mem_cons_of_mem _ hv2⟩, hviol, ?_⟩
          have hstep : checkFieldPermissions ((key, v) :: rest) perms action =
              checkFieldPermissions rest perms action := by
            simp [checkFieldPermissions, hd, hro, hal]
          rw [hstep]
          exact hres

/-- C5, counterexample.  The claim asserts `FilterAllowedFields` removes
`ReadOnly` fields on every write for *every* field-permission set,
including one whose `Allowed` and `Denied` lists are both empty.  But with
both lists empty the source returns the payload unchanged ("no
restrictions") without consulting `ReadOnly`: the read-only field
`"locked"` survives an `update` projection. -/
theorem C5_counterexample :
    FilterAllowedFields [("locked", .num 1)] ⟨[], [], ["locked"]⟩ ActionUpdate =
      [("locked", .num 1)] ∧
    ActionUpdate ≠ ActionRead ∧
    "locked" ∈ (FieldPermissions.mk [] [] ["locked"]).ReadOnly := by
  exact ⟨rfl, by decide, by decide⟩

/-- C5, amended.  (1) `CheckWithData` on an allowed policy rejects —
naming an offending field in its `Reason` — every payload containing a
denied field or a read-only field on a non-read action, for *every*
field-permission set (this part needs no non-emptiness caveat).
(2) `FilterAllowedFields` keeps read-only fields on `read`, and removes
them on writes *provided* `Allowed` or `Denied` is non-empty; when both
are empty the source returns the payload unchanged, so read-only fields
are not stripped on that degenerate path. -/
theorem C5_field_enforcement :
    (∀ (user? : Option User) (coll : String) (action : Action)
        (data : List (String × JSONValue)) (source : PolicySource),
      (Check user? coll action source).Allowed = true →
      (∃ kv ∈ data,
        kv.1 ∈ (Check user? coll action source).FieldPerms.Denied ∨
        (action ≠ ActionRead ∧
          kv.1 ∈ (Check user? coll action source).FieldPerms.ReadOnly)) →
      (CheckWithData user? coll action data source).1.Allowed = false ∧
      ∃ k, (∃ v, (k, v) ∈ data) ∧
        fieldViolation (Check user? coll action source).FieldPerms action k ∧
        ((CheckWithData user? coll action data source).1.Reason =
            "field '" ++ k ++ "' is not allowed" ∨
         (CheckWithData user? coll action data source).1.Reason =
            "field '" ++ k ++ "' is read-only" ∨
         (CheckWithData user? coll action data source).1.Reason =
            "field '" ++ k ++ "' is not in allowed list")) ∧
    (∀ (data : List (String × JSONValue)) (perms : FieldPermissions)
        (kv : String × JSONValue),
      kv ∈ data → kv.1 ∉ perms.Denied →
      (perms.Allowed = [] ∨ kv.1 ∈ perms.Allowed) →
      kv ∈ FilterAllowedFields data perms ActionRead) ∧
    (∀ (data : List (String × JSONValue)) (perms : FieldPermissions)
        (action : Action) (kv : String × JSONValue),
      (perms.Allowed ≠ [] ∨ perms.Denied ≠ []) →
      action ≠ ActionRead → kv.1 ∈ perms.ReadOnly →
      kv ∉ FilterAllowedFields data perms action) ∧
    (∀ (data : List (String × JSONValue)) (perms : FieldPermissions)
        (action : Action),
      perms.Allowed = [] → perms.Denied = [] →
      FilterAllowedFields data perms action = data) := by
  refine ⟨?_, ?_, ?_, ?_⟩
  · intro user? coll action data source hallowed hbad
    obtain ⟨k, hkmem, hviol, hres⟩ :=
      checkFieldPermissions_rejects data (Check user? coll action source).FieldPerms
        action hbad
    have hcwd : ∀ msg,
        checkFieldPermissions data (Check user? coll action source).FieldPerms action =
          some msg →
        (CheckWithData user? coll action data source).1 =
          { Allowed := false, Filter := none, FieldPerms := emptyFieldPermissions,
            Presets := [], Reason := msg } := by
      intro msg hmsg
      simp only [CheckWithData, hallowed, hmsg, Bool.not_true, Bool.false_eq_true,
        if_false]
    rcases hres with hres | hres | hres
    · rw [hcwd _ hres]
      exact ⟨rfl, k, hkmem, hviol, Or.inl rfl⟩
    · rw [hcwd _ hres]
      exact ⟨rfl, k, hkmem, hviol, Or.inr (Or.inl rfl)⟩
    · rw [hcwd _ hres]
      exact ⟨rfl, k, hkmem, hviol, Or.inr (Or.inr rfl)⟩
  · intro data perms kv hmem hden hal
    unfold FilterAllowedFields
    split
    · exact hmem
    · refine List.mem_filter.mpr ⟨hmem, ?_⟩
      rcases hal with h | h <;> simp [hden, h]
  · intro data perms action kv hne hact hro
    unfold FilterAllowedFields
    split
    · rename_i hempty
      rcases hne with h | h <;> simp_all
    · intro hmem
      have hpred := (List.mem_filter.mp hmem).2
      simp only [Bool.and_eq_true, Bool.not_eq_true'] at hpred
      have h2 := hpred.1.2
      rw [Bool.and_eq_false_iff] at h2
      rcases h2 with h2 | h2
      · simp [hact] at h2
      · simp [hro] at h2
  · intro data perms action h1 h2
    unfold FilterAllowedFields
    rw [if_pos (by simp [h1, h2])]

/-- C5 witness: the rejection branch of the amended theorem at a concrete
user, policy and payload (an `update` writing the read-only field
`"locked"`), plus the premises it discharges. -/
theorem C5_field_enforcement_witness :
    ((Check (some ⟨"u1", "bob", "b@x", "editor", "r9"⟩) "posts" ActionUpdate
        (fun _ _ _ => some ⟨none, ⟨[], [], ["locked"]⟩, []⟩)).Allowed = true ∧
     (∃ kv ∈ [(("locked" : String), JSONValue.num 1)],
        kv.1 ∈ (Check (some ⟨"u1", "bob", "b@x", "editor", "r9"⟩) "posts" ActionUpdate
          (fun _ _ _ => some ⟨none, ⟨[], [], ["locked"]⟩, []⟩)).FieldPerms.Denied ∨
        (ActionUpdate ≠ ActionRead ∧
          kv.1 ∈ (Check (some ⟨"u1", "bob", "b@x", "editor", "r9"⟩) "posts" ActionUpdate
            (fun _ _ _ => some ⟨none, ⟨[], [], ["locked"]⟩, []⟩)).FieldPerms.ReadOnly))) ∧
    ((CheckWithData (some ⟨"u1", "bob", "b@x", "editor", "r9"⟩) "posts" ActionUpdate
        [("locked", .num 1)]
        (fun _ _ _ => some ⟨none, ⟨[], [], ["locked"]⟩, []⟩)).1.Allowed = false ∧
     ∃ k, (∃ v, (k, v) ∈ [(("locked" : String), JSONValue.num 1)]) ∧
        fieldViolation (Check (some ⟨"u1", "bob", "b@x", "editor", "r9"⟩) "posts"
          ActionUpdate (fun _ _ _ => some ⟨none, ⟨[], [], ["locked"]⟩, []⟩)).FieldPerms
          ActionUpdate k ∧
        ((CheckWithData (some ⟨"u1", "bob", "b@x", "editor", "r9"⟩) "posts" ActionUpdate
            [("locked", .num 1)]
            (fun _ _ _ => some ⟨none, ⟨[], [], ["locked"]⟩, []⟩)).1.Reason =
          "field '" ++ k ++ "' is not allowed" ∨
         (CheckWithData (some ⟨"u1", "bob", "b@x", "editor", "r9"⟩) "posts" ActionUpdate
            [("locked", .num 1)]
            (fun _ _ _ => some ⟨none, ⟨[], [], ["locked"]⟩, []⟩)).1.Reason =
          "field '" ++ k ++ "' is read-only" ∨
         (CheckWithData (some ⟨"u1", "bob", "b@x", "editor", "r9"⟩) "posts" ActionUpdate
            [("locked", .num 1)]
            (fun _ _ _ => some ⟨none, ⟨[], [], ["locked"]⟩, []⟩)).1.Reason =
          "field '" ++ k ++ "' is not in allowed list")) :=
  ⟨⟨rfl, ⟨("locked", .num 1), by simp, Or.inr ⟨by decide, by decide⟩⟩⟩,
   C5_field_enforcement.1 (some ⟨"u1", "bob", "b@x", "editor", "r9"⟩) "posts"
     ActionUpdate [("locked", .num 1)]
     (fun _ _ _ => some ⟨none, ⟨[], [], ["locked"]⟩, []⟩) rfl
     ⟨("locked", .num 1), by simp, Or.inr ⟨by decide, by decide⟩⟩⟩

/-! ## Claim C8 — filter parsing -/

/-- C8.  (1) When every key matching the `filter[...]` pattern has an
allowed field and a known operator, `Parse` succeeds and returns exactly
one `Filter{field, op, value}` per matched key, in key order.
(2) If any matched key has a disallowed field (under a non-empty
allow-list) or an unknown operator, `Parse` returns an error — never a
partial filter list.  (3) Keys that do not match the pattern are ignored
without error. -/
theorem C8_parse :
    (∀ (allowed : List String) (params : List (String × List String)),
      (∀ kv ∈ params, ¬ invalidMatchedKey allowed kv) →
      Parse allowed params = .ok (specMatchedFilters params)) ∧
    (∀ (allowed : List String) (params : List (String × List String)),
      (∃ kv ∈ params, invalidMatchedKey allowed kv) →
      ∃ e, Parse allowed params = .error e) ∧
    (∀ (allowed : List String) (key : String) (values : List String)
        (params : List (String × List String)),
      matchFilterKey key = none →
      Parse allowed ((key, values) :: params) = Parse allowed params) := by
  refine ⟨?_, ?_, ?_⟩
  · intro allowed params
    induction params with
    | nil => intro _; rfl
    | cons kv rest ih =>
      intro h
      obtain ⟨key, values⟩ := kv
      have hhead := h _ (List.mem_cons_self _ _)
      have hrest : ∀ kv ∈ rest, ¬ invalidMatchedKey allowed kv :=
        fun kv hkv => h _ (List.mem_cons_of_mem _ hkv)
      rcases hm : matchFilterKey key with _ | ⟨f, o⟩
      · simp [Parse, specMatchedFilters, hm, ih hrest]
      · have hvalid : ¬((allowed ≠ [] ∧ f ∉ allowed) ∨ parseOp o = none) := by
          intro hx
          exact hhead ⟨f, o, hm, hx⟩
        push_neg at hvalid
        obtain ⟨hfield, hop⟩ := hvalid
        have hcondP : ¬(allowed ≠ [] ∧ f ∉ allowed) := by
          rintro ⟨h1, h2⟩
          exact h2 (hfield h1)
        rcases hov : parseOp o with _ | op
        · exact absurd hov hop
        · simp [Parse, hm, hcondP, hov, ih hrest, specMatchedFilters]
  · intro allowed params
    induction params with
    | nil => simp
    | cons kv rest ih =>
      intro h
      obtain ⟨key, values⟩ := kv
      rcases h with ⟨kv2, hmem, hbad⟩
      rcases List.mem_cons.mp hmem with heq | hmem2
      · subst heq
        obtain ⟨f, o, hm, hx⟩ := hbad
        rcases hx with ⟨hne, hnotmem⟩ | hop
        · exact ⟨"Field '" ++ f ++ "' is not allowed for filtering",
            by simp [Parse, hm, hne, hnotmem]⟩
        · by_cases hc : allowed ≠ [] ∧ f ∉ allowed
          · exact ⟨"Field '" ++ f ++ "' is not allowed for filtering",
              by simp [Parse, hm, hc.1, hc.2]⟩
          · exact ⟨"Unknown operator '" ++ o ++ "'",
              by simp [Parse, hm, hc, hop]⟩
      · obtain ⟨e, he⟩ := ih ⟨kv2, hmem2, hbad⟩
        rcases hm : matchFilterKey key with _ | ⟨f, o⟩
        · exact ⟨e, by simp [Parse, hm, he]⟩
        · by_cases hc : allowed ≠ [] ∧ f ∉ allowed
          · exact ⟨"Field '" ++ f ++ "' is not allowed for filtering",
              by simp [Parse, hm, hc.1, hc.2]⟩
          · rcases hov : parseOp o with _ | op
            · exact ⟨"Unknown operator '" ++ o ++ "'",
                by simp [Parse, hm, hc, hov]⟩
            · exact ⟨e, by simp [Parse, hm, hc, hov, he]⟩
  · intro allowed key values params hm
    simp [Parse, hm]

/-- C8 witness: the error branch at a concrete parameter map containing
the unknown operator `foo`, applied through the theorem. -/
theorem C8_parse_witness :
    (∃ kv ∈ [(("filter[name:foo]" : String), (["x"] : List String))],
      invalidMatchedKey ["name"] kv) ∧
    ∃ e, Parse ["name"] [("filter[name:foo]", ["x"])] = .error e :=
  ⟨by decide,
   C8_parse.2.1 ["name"] [("filter[name:foo]", ["x"])] (by decide)⟩

theorem scanPH_nil : scanPH [] = [] := by
  rw [scanPH]

theorem scanPH_cons_ne {c : Char} (rest : List Char) (h : c ≠ '$') :
    scanPH (c :: rest) = scanPH rest := by
  rw [scanPH]
  simp [h]

theorem scanPH_append_of_no_dollar (a b : List Char) (ha : '$' ∉ a) :
    scanPH (a ++ b) = scanPH b := by
  induction a with
  | nil => rfl
  | cons c rest ih =>
    have hc : c ≠ '$' := fun h => ha (h ▸ List.mem_cons_self _ _)
    rw [List.cons_append, scanPH_cons_ne _ hc]
    exact ih (fun h => ha (List.mem_cons_of_mem _ h))

theorem takeWhile_eq_nil_of_headNotDigit (b : List Char) (hb : HeadNotDigit b) :
    b.takeWhile Char.isDigit = [] := by
  cases b with
  | nil => rfl
  | cons c rest =>
    have : c.isDigit = false := hb
    simp [List.takeWhile_cons, this]

theorem dropWhile_eq_self_of_headNotDigit (b : List Char) (hb : HeadNotDigit b) :
    b.dropWhile Char.isDigit = b := by
  cases b with
  | nil => rfl
  | cons c rest =>
    have : c.isDigit = false := hb
    simp [List.dropWhile_cons, this]

/-- Scanning `'$'` followed by a digit run and a non-digit-led tail yields
the digit run as a token. -/
theorem scanPH_dollar (ds b : List Char) (hne : ds ≠ [])
    (hdig : ∀ c ∈ ds, c.isDigit = true) (hb : HeadNotDigit b) :
    scanPH ('$' :: (ds ++ b)) = ds.asString :: scanPH b := by
  rw [scanPH]
  simp only [if_pos rfl]
  have htw : (ds ++ b).takeWhile Char.isDigit = ds := by
    rw [List.takeWhile_append_of_pos hdig, takeWhile_eq_nil_of_headNotDigit b hb,
      List.append_nil]
  have hdw : (ds ++ b).dropWhile Char.isDigit = b := by
    rw [List.dropWhile_append_of_pos hdig, dropWhile_eq_self_of_headNotDigit b hb]
  rw [htw, hdw]
  simp [List.isEmpty_iff, hne]

/-! ### Decimal renderings are digit runs -/

theorem digitChar_isDigit {m : Nat} (h : m < 10) :
    (Nat.digitChar m).isDigit = true := by
  interval_cases m <;> rfl

theorem toDigitsCore_digits (fuel : Nat) :
    ∀ (n : Nat) (ds : List Char), (∀ c ∈ ds, c.isDigit = true) →
      ∀ c ∈ Nat.toDigitsCore 10 fuel n ds, c.isDigit = true := by
  induction fuel with
  | zero =>
    intro n ds hds
    simpa [Nat.toDigitsCore] using hds
  | succ fuel ih =>
    intro n ds hds
    rw [Nat.toDigitsCore]
    have hcons : ∀ c ∈ Nat.digitChar (n % 10) :: ds, c.isDigit = true := by
      intro c hc
      rcases List.mem_cons.mp hc with h | h
      · subst h
        exact digitChar_isDigit (Nat.mod_lt _ (by norm_num))
      · exact hds _ h
    split
    · exact hcons
    · exact ih _ _ hcons

theorem toDigitsCore_ne_nil (fuel : Nat) :
    ∀ (n : Nat) (ds : List Char), Nat.toDigitsCore 10 (fuel + 1) n ds ≠ [] := by
  induction fuel with
  | zero =>
    intro n ds
    rw [Nat.toDigitsCore]
    split
    · simp
    · rw [Nat.toDigitsCore]
      simp
  | succ fuel ih =>
    intro n ds
    rw [Nat.toDigitsCore]
    split
    · simp
    · exact ih _ _

/-- Every character of `Nat.repr` is a decimal digit. -/
theorem repr_digits (m : Nat) : ∀ c ∈ (Nat.repr m).data, c.isDigit = true := by
  intro c hc
  exact toDigitsCore_digits (m + 1) m [] (by simp) c hc

/-- `Nat.repr` is never the empty string. -/
theorem repr_ne_nil (m : Nat) : (Nat.repr m).data ≠ [] :=
  toDigitsCore_ne_nil m m []

theorem asString_data (s : String) : s.data.asString = s := by
  cases s
  rfl

/-! ### Composition rules for `ScanStr` / `ScanSeq` -/

theorem phTokens_zero (s : Nat) : phTokens s 0 = [] := rfl

theorem phTokens_length (s k : Nat) : (phTokens s k).length = k := by
  simp [phTokens]

theorem phTokens_append (s k1 k2 : Nat) :
    phTokens s k1 ++ phTokens (s + k1) k2 = phTokens s (k1 + k2) := by
  unfold phTokens
  rw [← List.map_append, List.range'_append_1, Nat.add_comm k2 k1]

theorem headNotDigit_append {a b : List Char} (ha : HeadNotDigit a)
    (hb : HeadNotDigit b) : HeadNotDigit (a ++ b) := by
  cases a with
  | nil => exact hb
  | cons c rest => exact ha

/-- For a non-empty first part, only its head matters. -/
theorem headNotDigit_append_left {a : List Char} (b : List Char) (hne : a ≠ [])
    (ha : HeadNotDigit a) : HeadNotDigit (a ++ b) := by
  cases a with
  | nil => exact absurd rfl hne
  | cons c rest => exact ha

theorem scanStr_nodollar (c : String) (s : Nat) (h : '$' ∉ c.data) :
    ScanStr c s 0 := by
  intro b hb
  rw [scanPH_append_of_no_dollar _ _ h, phTokens_zero, List.nil_append]

theorem scanStr_empty (s : Nat) : ScanStr "" s 0 :=
  scanStr_nodollar _ _ (by simp)

theorem scanStr_concat {c1 c2 : String} {s k1 k2 : Nat}
    (h1 : ScanStr c1 s k1) (h2 : ScanStr c2 (s + k1) k2)
    (hh : HeadNotDigit c2.data) : ScanStr (c1 ++ c2) s (k1 + k2) := by
  intro b hb
  rw [String.data_append, List.append_assoc, h1 _ (headNotDigit_append hh hb),
    h2 _ hb, ← List.append_assoc, phTokens_append]

/-- The base fragment: any `'$'`-free prefix followed by `"$"` and a
decimal rendering scans to that single token. -/
theorem scanStr_of_shape (c : String) (p : List Char) (m : Nat)
    (hc : c.data = p ++ '$' :: (Nat.repr m).data) (hp : '$' ∉ p) :
    ScanStr c m 1 := by
  intro b hb
  rw [hc, List.append_assoc, List.cons_append,
    scanPH_append_of_no_dollar _ _ hp,
    scanPH_dollar _ _ (repr_ne_nil m) (repr_digits m) hb, asString_data]
  rfl

/-- `"$" ++ Nat.repr m` scans to the token of `m`. -/
theorem scanStr_dollar (m : Nat) : ScanStr ("$" ++ Nat.repr m) m 1 :=
  scanStr_of_shape _ [] m (by simp) (by simp)

theorem scanStr_prefix {c : String} {s k : Nat} (p : String)
    (hp : '$' ∉ p.data) (h : ScanStr c s k) : ScanStr (p ++ c) s k := by
  intro b hb
  rw [String.data_append, List.append_assoc, scanPH_append_of_no_dollar _ _ hp,
    h _ hb]

theorem scanStr_suffix {c : String} {s k : Nat} (q : String)
    (hq : '$' ∉ q.data) (hqh : HeadNotDigit q.data) (h : ScanStr c s k) :
    ScanStr (c ++ q) s k := by
  have := scanStr_concat h (scanStr_nodollar q (s + k) hq) hqh
  simpa using this

theorem scanSeq_nil (s : Nat) : ScanSeq [] s 0 := rfl

theorem scanSeq_single {c : String} {s k : Nat} (h : ScanStr c s k) :
    ScanSeq [c] s k :=
  ⟨k, 0, rfl, h, rfl⟩

theorem scanSeq_cons {c : String} {cs : List String} {s k1 k2 : Nat}
    (h1 : ScanStr c s k1) (h2 : ScanSeq cs (s + k1) k2) :
    ScanSeq (c :: cs) s (k1 + k2) :=
  ⟨k1, k2, rfl, h1, h2⟩

theorem scanSeq_append {cs1 cs2 : List String} {s k1 k2 : Nat}
    (h1 : ScanSeq cs1 s k1) (h2 : ScanSeq cs2 (s + k1) k2) :
    ScanSeq (cs1 ++ cs2) s (k1 + k2) := by
  induction cs1 generalizing s k1 with
  | nil =>
    have : k1 = 0 := h1
    subst this
    simpa using h2
  | cons c cs ih =>
    obtain ⟨a1, a2, hk, hc, hcs⟩ := h1
    subst hk
    have := ih hcs (by rw [Nat.add_assoc]; exact h2)
    exact ⟨a1, a2 + k2, by omega, hc, this⟩

theorem scanSeq_map_prefix {cs : List String} {s k : Nat} (p : String)
    (hp : '$' ∉ p.data) (h : ScanSeq cs s k) :
    ScanSeq (cs.map (fun c => p ++ c)) s k := by
  induction cs generalizing s k with
  | nil => exact h
  | cons c cs ih =>
    obtain ⟨k1, k2, hk, hc, hcs⟩ := h
    exact ⟨k1, k2, hk, scanStr_prefix p hp hc, ih hcs⟩

/-- Joining a fragment sequence with a benign separator produces a single
fragment with the same contiguous token range. -/
theorem scanSeq_joinSep {cs : List String} {s k : Nat} (sep : String)
    (hsep : SepOK sep) (h : ScanSeq cs s k) : ScanStr (joinSep sep cs) s k := by
  induction cs generalizing s k with
  | nil =>
    have : k = 0 := h
    subst this
    exact scanStr_empty s
  | cons c cs ih =>
    obtain ⟨k1, k2, hk, hc, hcs⟩ := h
    subst hk
    cases cs with
    | nil =>
      have : k2 = 0 := hcs
      subst this
      simpa [joinSep] using hc
    | cons c2 cs2 =>
      show ScanStr (c ++ sep ++ joinSep sep (c2 :: cs2)) s (k1 + k2)
      have hrest : ScanStr (sep ++ joinSep sep (c2 :: cs2)) (s + k1) k2 := by
        intro b hb
        rw [String.data_append, List.append_assoc,
          scanPH_append_of_no_dollar _ _ hsep.2.1]
        exact ih hcs b hb
      rw [String.append_assoc]
      exact scanStr_concat hc hrest (by
        rw [String.data_append]
        exact headNotDigit_append_left _ hsep.1 hsep.2.2)

/-- A run of `"$" ++ Nat.repr m` fragments for `m = s, …, s+k-1` consumes
exactly that contiguous token range. -/
theorem scanSeq_placeholders (k : Nat) :
    ∀ s : Nat, ScanSeq ((List.range' s k).map (fun m => "$" ++ Nat.repr m)) s k := by
  induction k with
  | zero =>
    intro s
    simp only [List.range'_zero, List.map_nil]
    exact scanSeq_nil s
  | succ k ih =>
    intro s
    rw [List.range'_succ, List.map_cons]
    have := scanSeq_cons (scanStr_dollar s) (ih (s + 1))
    simpa [Nat.add_comm] using this

/-- The strict sanitizer never emits a dollar sign. -/
theorem no_dollar_sanitizeIdentifier (fld : String) :
    '$' ∉ (sanitizeIdentifier fld).data := by
  unfold sanitizeIdentifier
  split
  · rename_i h
    intro hmem
    cases hfd : fld.data with
    | nil =>
      rw [hfd] at hmem
      simp at hmem
    | cons c cs =>
      rw [hfd] at hmem h
      simp only [matchesIdent, Bool.and_eq_true] at h
      rcases List.mem_cons.mp hmem with h1 | h1
      · rw [← h1] at h
        exact absurd h.1 (by decide)
      · have h2 := List.all_eq_true.mp h.2 _ h1
        exact absurd h2 (by decide)
  · simp

/-- The permissive sanitizer never emits a dollar sign. -/
theorem no_dollar_sanitizeIdentifierPermission (fld : String) :
    '$' ∉ (sanitizeIdentifierPermission fld).data := by
  intro hmem
  have h2 : isIdentChar '$' = true :=
    (List.mem_filter.mp hmem).2
  exact absurd h2 (by decide)

/-- Every single-filter fragment of `filterToSQL` scans to the contiguous
token range starting at its `paramNum`, one token per argument. -/
theorem scanStr_filterToSQL (f : Filter) (n : Nat) :
    ScanStr (filterToSQL f n).1 n (filterToSQL f n).2.length := by
  obtain ⟨fld, op, v⟩ := f
  have hnd := no_dollar_sanitizeIdentifier fld
  cases op with
  | isNull =>
    simp only [filterToSQL, List.length_nil]
    apply scanStr_nodollar
    rw [String.data_append]
    intro hmem
    rcases List.mem_append.mp hmem with h | h
    · exact hnd h
    · simp at h
  | isNotNull =>
    simp only [filterToSQL, List.length_nil]
    apply scanStr_nodollar
    rw [String.data_append]
    intro hmem
    rcases List.mem_append.mp hmem with h | h
    · exact hnd h
    · simp at h
  | like =>
    simp only [filterToSQL, List.length_cons, List.length_nil, Nat.zero_add]
    refine scanStr_of_shape _ ((sanitizeIdentifier fld).data ++ " ILIKE ".data) n ?_ ?_
    · simp [String.data_append]
    · intro hmem
      rcases List.mem_append.mp hmem with h | h
      · exact hnd h
      · simp at h
  | inop =>
    simp only [filterToSQL, List.length_map]
    have hph : (List.range (splitComma v).length).map
          (fun i => "$" ++ Nat.repr (n + i)) =
        (List.range' n (splitComma v).length).map (fun m => "$" ++ Nat.repr m) := by
      rw [List.range'_eq_map_range, List.map_map]
      rfl
    rw [hph]
    have hseq := scanSeq_placeholders (splitComma v).length n
    have hjoin := scanSeq_joinSep ", " ⟨by simp, by decide, rfl⟩ hseq
    refine scanStr_suffix ")" (by decide) rfl ?_
    refine scanStr_prefix (sanitizeIdentifier fld ++ " IN (") ?_ hjoin
    rw [String.data_append]
    intro hmem
    rcases List.mem_append.mp hmem with h | h
    · exact hnd h
    · simp at h
  | eq =>
    simp only [filterToSQL, operatorSQL, List.length_cons, List.length_nil, Nat.zero_add]
    refine scanStr_of_shape _
      ((sanitizeIdentifier fld).data ++ " ".data ++ "=".data ++ [' ']) n ?_ ?_
    · simp [String.data_append]
    · intro hmem
      rcases List.mem_append.mp hmem with h | h
      · rcases List.mem_append.mp h with h2 | h2
        · rcases List.mem_append.mp h2 with h3 | h3
          · exact hnd h3
          · simp at h3
        · simp at h2
      · simp at h
  | ne =>
    simp only [filterToSQL, operatorSQL, List.length_cons, List.length_nil, Nat.zero_add]
    refine scanStr_of_shape _
      ((sanitizeIdentifier fld).data ++ " ".data ++ "!=".data ++ [' ']) n ?_ ?_
    · simp [String.data_append]
    · intro hmem
      rcases List.mem_append.mp hmem with h | h
      · rcases List.mem_append.mp h with h2 | h2
        · rcases List.mem_append.mp h2 with h3 | h3
          · exact hnd h3
          · simp at h3
        · simp at h2
      · simp at h
  | gt =>
    simp only [filterToSQL, operatorSQL, List.length_cons, List.length_nil, Nat.zero_add]
    refine scanStr_of_shape _
      ((sanitizeIdentifier fld).data ++ " ".data ++ ">".data ++ [' ']) n ?_ ?_
    · simp [String.data_append]
    · intro hmem
      rcases List.mem_append.mp hmem with h | h
      · rcases List.mem_append.mp h with h2 | h2
        · rcases List.mem_append.mp h2 with h3 | h3
          · exact hnd h3
          · simp at h3
        · simp at h2
      · simp at h
  | gte =>
    simp only [filterToSQL, operatorSQL, List.length_cons, List.length_nil, Nat.zero_add]
    refine scanStr_of_shape _
      ((sanitizeIdentifier fld).data ++ " ".data ++ ">=".data ++ [' ']) n ?_ ?_
    · simp [String.data_append]
    · intro hmem
      rcases List.mem_append.mp hmem with h | h
      · rcases List.mem_append.mp h with h2 | h2
        · rcases List.mem_append.mp h2 with h3 | h3
          · exact hnd h3
          · simp at h3
        · simp at h2
      · simp at h
  | lt =>
    simp only [filterToSQL, operatorSQL, List.length_cons, List.length_nil, Nat.zero_add]
    refine scanStr_of_shape _
      ((sanitizeIdentifier fld).data ++ " ".data ++ "<".data ++ [' ']) n ?_ ?_
    · simp [String.data_append]
    · intro hmem
      rcases List.mem_append.mp hmem with h | h
      · rcases List.mem_append.mp h with h2 | h2
        · rcases List.mem_append.mp h2 with h3 | h3
          · exact hnd h3
          · simp at h3
        · simp at h2
      · simp at h
  | lte =>
    simp only [filterToSQL, operatorSQL, List.length_cons, List.length_nil, Nat.zero_add]
    refine scanStr_of_shape _
      ((sanitizeIdentifier fld).data ++ " ".data ++ "<=".data ++ [' ']) n ?_ ?_
    · simp [String.data_append]
    · intro hmem
      rcases List.mem_append.mp hmem with h | h
      · rcases List.mem_append.mp h with h2 | h2
        · rcases List.mem_append.mp h2 with h3 | h3
          · exact hnd h3
          · simp at h3
        · simp at h2
      · simp at h

/-- The conditions of a filter list consume the contiguous token range
starting at the list's start parameter. -/
theorem scanSeq_filtersAux (fs : List Filter) :
    ∀ n : Nat, ScanSeq (filtersToSQLAux fs n).1 n (filtersToSQLAux fs n).2.length := by
  induction fs with
  | nil =>
    intro n
    exact scanSeq_nil n
  | cons f fs ih =>
    intro n
    simp only [filtersToSQLAux, List.length_append]
    exact scanSeq_cons (scanStr_filterToSQL f n) (ih (n + (filterToSQL f n).2.length))

/-! ## Claim C1 — contiguous placeholder numbering in `FiltersToSQL` -/

/-- C1.  For every filter list and start index `n ≥ 1`, the placeholder
tokens appearing in the SQL text returned by `FiltersToSQL filters n` are
exactly the decimal renderings of `n, n+1, …, n+len(args)-1`, in order of
appearance — a contiguous strictly increasing sequence whose `i`-th
placeholder is bound (by PostgreSQL's positional convention for a fragment
numbered from `n`) to the `i`-th returned argument.  An `in` filter whose
raw value splits into `k` comma-separated items consumes exactly `k`
consecutive placeholders, and `null` / `notnull` filters consume none. -/
theorem C1_placeholder_numbering :
    (∀ (filters : List Filter) (n : Nat), 1 ≤ n →
      scanPH (FiltersToSQL filters n).1.data =
        phTokens n (FiltersToSQL filters n).2.length) ∧
    (∀ (f : Filter) (n : Nat), f.Operator = .inop →
      (filterToSQL f n).2.length = (splitComma f.Value).length ∧
      scanPH (filterToSQL f n).1.data = phTokens n (splitComma f.Value).length) ∧
    (∀ (f : Filter) (n : Nat), f.Operator = .isNull ∨ f.Operator = .isNotNull →
      (filterToSQL f n).2 = [] ∧ scanPH (filterToSQL f n).1.data = []) := by
  refine ⟨?_, ?_, ?_⟩
  · intro filters n _
    unfold FiltersToSQL
    split
    · simp [scanPH_nil, phTokens_zero]
    · have hstr := scanSeq_joinSep " AND " ⟨by simp, by decide, rfl⟩
        (scanSeq_filtersAux filters n)
      have h2 := hstr [] trivial
      simpa [scanPH_nil] using h2
  · intro f n hop
    obtain ⟨fld, op, v⟩ := f
    have hop2 : op = .inop := hop
    subst hop2
    have h1 := scanStr_filterToSQL ⟨fld, .inop, v⟩ n [] trivial
    simp only [List.append_nil, scanPH_nil] at h1
    constructor
    · simp [filterToSQL]
    · rw [h1]
      simp [filterToSQL]
  · intro f n hop
    obtain ⟨fld, op, v⟩ := f
    rcases hop with hop2 | hop2
    · have hop3 : op = .isNull := hop2
      subst hop3
      have h1 := scanStr_filterToSQL ⟨fld, .isNull, v⟩ n [] trivial
      simp only [List.append_nil, scanPH_nil] at h1
      exact ⟨rfl, by simpa [filterToSQL, phTokens_zero] using h1⟩
    · have hop3 : op = .isNotNull := hop2
      subst hop3
      have h1 := scanStr_filterToSQL ⟨fld, .isNotNull, v⟩ n [] trivial
      simp only [List.append_nil, scanPH_nil] at h1
      exact ⟨rfl, by simpa [filterToSQL, phTokens_zero] using h1⟩

/-- C1 witness: the contiguity statement applied to a concrete filter list
(`eq`, a two-element `in`, a `notnull`) with start parameter 1, plus the
`in` and `null` sub-statements at their hypotheses. -/
theorem C1_placeholder_numbering_witness :
    ((1 : Nat) ≤ 1 ∧
      scanPH (FiltersToSQL [⟨"status", .eq, "active"⟩, ⟨"tags", .inop, "a,b"⟩,
          ⟨"deleted_at", .isNotNull, ""⟩] 1).1.data =
        phTokens 1 (FiltersToSQL [⟨"status", .eq, "active"⟩, ⟨"tags", .inop, "a,b"⟩,
          ⟨"deleted_at", .isNotNull, ""⟩] 1).2.length) ∧
    (Filter.Operator ⟨"tags", .inop, "a,b"⟩ = .inop ∧
      (filterToSQL ⟨"tags", .inop, "a,b"⟩ 3).2.length =
        (splitComma "a,b").length ∧
      scanPH (filterToSQL ⟨"tags", .inop, "a,b"⟩ 3).1.data =
        phTokens 3 (splitComma "a,b").length) :=
  ⟨⟨by decide, C1_placeholder_numbering.1 _ 1 (by decide)⟩,
   ⟨rfl, C1_placeholder_numbering.2.1 ⟨"tags", .inop, "a,b"⟩ 3 rfl⟩⟩

/-! ## Claim C3 — the permission filter compiler

The invariant threaded through the `FilterBuilder` recursion: a call at
offset `po` advances the offset by exactly the number of arguments it
emits, and its condition fragments consume the contiguous placeholder
range `$(po+1) … $(po+args)`. -/

theorem scanOK_nil (po : Nat) : ScanOK po ([], [], po) :=
  ⟨by simp, scanSeq_nil _⟩

theorem scanSeq_nil_len {s k : Nat} (h : ScanSeq [] s k) : k = 0 := h

/-- Sequential composition: a head result at `po` followed by a tail
result at the head's final offset. -/
theorem scanOK_append {po : Nat} {r1 r2 : List String × List JSONValue × Nat}
    (h1 : ScanOK po r1) (h2 : ScanOK r1.2.2 r2) :
    ScanOK po (r1.1 ++ r2.1, r1.2.1 ++ r2.2.1, r2.2.2) := by
  obtain ⟨ho1, hs1⟩ := h1
  obtain ⟨ho2, hs2⟩ := h2
  constructor
  · simp only [List.length_append]
    omega
  · simp only [List.length_append]
    refine scanSeq_append hs1 ?_
    have : r1.2.2 + 1 = po + 1 + r1.2.1.length := by omega
    rw [this] at hs2
    exact hs2

/-- An operator branch emitting one placeholder `$(po+1)` and one
argument. -/
theorem scanOK_one (po : Nat) (s : String) (v : JSONValue) (p : List Char)
    (hs : s.data = p ++ '$' :: (Nat.repr (po + 1)).data) (hp : '$' ∉ p) :
    ScanOK po ([s], [v], po + 1) :=
  ⟨by simp, by simpa using scanSeq_single (scanStr_of_shape s p (po + 1) hs hp)⟩

/-- An operator branch emitting a condition without placeholders. -/
theorem scanOK_noarg (po : Nat) (s : String) (hnd : '$' ∉ s.data) :
    ScanOK po ([s], [], po) :=
  ⟨by simp, by simpa using scanSeq_single (scanStr_nodollar s (po + 1) hnd)⟩

/-- The `_in` / `_nin` branches: `k = elems.length` placeholders
`$(po+1) … $(po+k)` inside a parenthesized list. -/
theorem scanOK_inlist (po : Nat) (kw : String) (elems : List JSONValue)
    (hkw : '$' ∉ kw.data) :
    ScanOK po
      ([kw ++ joinSep ", " ((List.range elems.length).map
          (fun i => "$" ++ Nat.repr (po + 1 + i))) ++ ")"],
       elems, po + elems.length) := by
  have hph : (List.range elems.length).map (fun i => "$" ++ Nat.repr (po + 1 + i)) =
      (List.range' (po + 1) elems.length).map (fun m => "$" ++ Nat.repr m) := by
    rw [List.range'_eq_map_range, List.map_map]
    rfl
  refine ⟨by simp, ?_⟩
  rw [hph]
  refine scanSeq_single ?_
  refine scanStr_suffix ")" (by decide) rfl ?_
  exact scanStr_prefix kw hkw
    (scanSeq_joinSep ", " ⟨by simp, by decide, rfl⟩
      (scanSeq_placeholders elems.length (po + 1)))

/-- The `_between` branch: two placeholders `$(po+1)` and `$(po+2)`. -/
theorem scanOK_between (po : Nat) (lo hi : JSONValue) :
    ScanOK po
      (["BETWEEN $" ++ Nat.repr (po + 1) ++ " AND $" ++ Nat.repr (po + 2)],
       [lo, hi], po + 2) := by
  refine ⟨by simp, ?_⟩
  have h1 : ScanStr ("BETWEEN $" ++ Nat.repr (po + 1)) (po + 1) 1 :=
    scanStr_of_shape _ ['B', 'E', 'T', 'W', 'E', 'E', 'N', ' '] (po + 1)
      (by simp [String.data_append]) (by decide)
  have h2 : ScanStr (" AND $" ++ Nat.repr (po + 2)) (po + 2) 1 :=
    scanStr_of_shape _ [' ', 'A', 'N', 'D', ' '] (po + 2)
      (by simp [String.data_append]) (by decide)
  have hcat := scanStr_concat h1 (by simpa using h2) (by simp [String.data_append]; rfl)
  refine scanSeq_single ?_
  have heq : "BETWEEN $" ++ Nat.repr (po + 1) ++ " AND $" ++ Nat.repr (po + 2) =
      ("BETWEEN $" ++ Nat.repr (po + 1)) ++ (" AND $" ++ Nat.repr (po + 2)) := by
    rw [String.append_assoc]
  rw [heq]
  simpa using hcat

/-- The loop of `buildOperatorCondition` satisfies the placeholder
invariant. -/
theorem buildOperatorList_scan (ops : List (String × JSONValue)) :
    ∀ po : Nat, ScanOK po (buildOperatorList po ops) := by
  induction ops with
  | nil =>
    intro po
    exact scanOK_nil po
  | cons hd rest ih =>
    intro po
    obtain ⟨op, value⟩ := hd
    simp only [buildOperatorList]
    refine scanOK_append ?_ (ih _)
    split
    · exact scanOK_one po _ _ ['=', ' '] (by simp [String.data_append]) (by decide)
    · exact scanOK_one po _ _ ['!', '=', ' '] (by simp [String.data_append]) (by decide)
    · exact scanOK_one po _ _ ['!', '=', ' '] (by simp [String.data_append]) (by decide)
    · exact scanOK_one po _ _ ['>', ' '] (by simp [String.data_append]) (by decide)
    · exact scanOK_one po _ _ ['>', '=', ' '] (by simp [String.data_append]) (by decide)
    · exact scanOK_one po _ _ ['<', ' '] (by simp [String.data_append]) (by decide)
    · exact scanOK_one po _ _ ['<', '=', ' '] (by simp [String.data_append]) (by decide)
    · -- `_in`
      split
      · rename_i elems
        split
        · rename_i hemp
          exact scanOK_nil po
        · exact scanOK_inlist po "IN (" elems (by decide)
      · exact scanOK_nil po
    · -- `_nin`
      split
      · rename_i elems
        split
        · exact scanOK_nil po
        · exact scanOK_inlist po "NOT IN (" elems (by decide)
      · exact scanOK_nil po
    · -- `_not_in`
      split
      · rename_i elems
        split
        · exact scanOK_nil po
        · exact scanOK_inlist po "NOT IN (" elems (by decide)
      · exact scanOK_nil po
    · exact scanOK_one po _ _ ['I', 'L', 'I', 'K', 'E', ' ']
        (by simp [String.data_append]) (by decide)
    · exact scanOK_one po _ _ ['I', 'L', 'I', 'K', 'E', ' ']
        (by simp [String.data_append]) (by decide)
    · exact scanOK_one po _ _ ['N', 'O', 'T', ' ', 'I', 'L', 'I', 'K', 'E', ' ']
        (by simp [String.data_append]) (by decide)
    · exact scanOK_one po _ _ ['N', 'O', 'T', ' ', 'I', 'L', 'I', 'K', 'E', ' ']
        (by simp [String.data_append]) (by decide)
    · exact scanOK_one po _ _ ['I', 'L', 'I', 'K', 'E', ' ']
        (by simp [String.data_append]) (by decide)
    · exact scanOK_one po _ _ ['I', 'L', 'I', 'K', 'E', ' ']
        (by simp [String.data_append]) (by decide)
    · -- `_null`
      split
      · rename_i b
        cases b
        · exact scanOK_noarg po _ (by decide)
        · exact scanOK_noarg po _ (by decide)
      · exact scanOK_nil po
    · -- `_is_null`
      split
      · rename_i b
        cases b
        · exact scanOK_noarg po _ (by decide)
        · exact scanOK_noarg po _ (by decide)
      · exact scanOK_nil po
    · exact scanOK_noarg po _ (by decide)
    · exact scanOK_noarg po _ (by decide)
    · -- `_between`
      split
      · split
        · rename_i lo hi
          exact scanOK_between po lo hi
        · exact scanOK_nil po
      · exact scanOK_nil po
    · exact scanOK_one po _ _ ['~', ' '] (by simp [String.data_append]) (by decide)
    · exact scanOK_one po _ _ ['~', '*', ' '] (by simp [String.data_append]) (by decide)
    · exact scanOK_nil po

/-- `buildOperatorCondition` satisfies the single-condition invariant. -/
theorem buildOperatorCondition_scan (po : Nat) (field : String)
    (ops : List (String × JSONValue)) :
    ScanOKStr po (buildOperatorCondition po field ops) := by
  have h := buildOperatorList_scan ops po
  obtain ⟨ho, hs⟩ := h
  unfold buildOperatorCondition
  dsimp only
  split
  · rename_i hemp
    have hz : (buildOperatorList po ops).2.1.length = 0 := by
      rw [List.isEmpty_iff] at hemp
      rw [hemp] at hs
      exact scanSeq_nil_len hs
    refine ⟨by simp [ho, hz], by simp, by simp⟩
  · rename_i hemp
    refine ⟨ho, ?_, ?_⟩
    · intro _
      refine scanSeq_joinSep " AND " ⟨by simp, by decide, rfl⟩ ?_
      refine scanSeq_map_prefix (sanitizeIdentifierPermission field ++ " ") ?_ hs
      rw [String.data_append]
      intro hmem
      rcases List.mem_append.mp hmem with h | h
      · exact no_dollar_sanitizeIdentifierPermission field h
      · simp at h
    · intro hcontra
      exfalso
      rw [List.isEmpty_iff] at hemp
      have : (buildOperatorList po ops).1.map
          (fun c => sanitizeIdentifierPermission field ++ " " ++ c) ≠ [] := by
        simpa using hemp
      cases hm : (buildOperatorList po ops).1.map
          (fun c => sanitizeIdentifierPermission field ++ " " ++ c) with
      | nil => exact this hm
      | cons x xs =>
        rw [hm] at hcontra
        cases xs with
        | nil =>
          simp only [joinSep] at hcontra
          have hx : x ∈ (buildOperatorList po ops).1.map
              (fun c => sanitizeIdentifierPermission field ++ " " ++ c) := by
            rw [hm]; exact List.mem_cons_self _ _
          obtain ⟨c, _, hc⟩ := List.mem_map.mp hx
          rw [← hc] at hcontra
          rw [String.append_assoc] at hcontra
          have := (append_eq_empty_iff _ _).mp hcontra
          have h2 := (append_eq_empty_iff _ _).mp this.2
          exact absurd h2.1 (by decide)
        | cons y ys =>
          simp only [joinSep] at hcontra
          rw [String.append_assoc] at hcontra
          have := (append_eq_empty_iff _ _).mp hcontra
          have h2 := (append_eq_empty_iff _ _).mp this.2
          exact absurd h2.1 (by decide)

/-- `buildFieldCondition` satisfies the single-condition invariant. -/
theorem buildFieldCondition_scan (po : Nat) (field : String) (value : JSONValue) :
    ScanOKStr po (buildFieldCondition po field value) := by
  cases value with
  | obj opMap => exact buildOperatorCondition_scan po field opMap
  | str s =>
    refine ⟨by simp [buildFieldCondition], fun _ => ?_, fun hcontra => ?_⟩
    · refine scanStr_of_shape _
        ((sanitizeIdentifierPermission field).data ++ [' ', '=', ' ']) (po + 1)
        (by simp [buildFieldCondition, String.data_append]) ?_
      intro hmem
      rcases List.mem_append.mp hmem with h | h
      · exact no_dollar_sanitizeIdentifierPermission field h
      · simp at h
    · exfalso
      simp only [buildFieldCondition] at hcontra
      rw [String.append_assoc] at hcontra
      have := (append_eq_empty_iff _ _).mp hcontra
      have h2 := (append_eq_empty_iff _ _).mp this.2
      exact absurd h2.1 (by decide)
  | num n =>
    refine ⟨by simp [buildFieldCondition], fun _ => ?_, fun hcontra => ?_⟩
    · refine scanStr_of_shape _
        ((sanitizeIdentifierPermission field).data ++ [' ', '=', ' ']) (po + 1)
        (by simp [buildFieldCondition, String.data_append]) ?_
      intro hmem
      rcases List.mem_append.mp hmem with h | h
      · exact no_dollar_sanitizeIdentifierPermission field h
      · simp at h
    · exfalso
      simp only [buildFieldCondition] at hcontra
      rw [String.append_assoc] at hcontra
      have := (append_eq_empty_iff _ _).mp hcontra
      have h2 := (append_eq_empty_iff _ _).mp this.2
      exact absurd h2.1 (by decide)
  | bool b =>
    refine ⟨by simp [buildFieldCondition], fun _ => ?_, fun hcontra => ?_⟩
    · refine scanStr_of_shape _
        ((sanitizeIdentifierPermission field).data ++ [' ', '=', ' ']) (po + 1)
        (by simp [buildFieldCondition, String.data_append]) ?_
      intro hmem
      rcases List.mem_append.mp hmem with h | h
      · exact no_dollar_sanitizeIdentifierPermission field h
      · simp at h
    · exfalso
      simp only [buildFieldCondition] at hcontra
      rw [String.append_assoc] at hcontra
      have := (append_eq_empty_iff _ _).mp hcontra
      have h2 := (append_eq_empty_iff _ _).mp this.2
      exact absurd h2.1 (by decide)
  | null =>
    refine ⟨by simp [buildFieldCondition], fun _ => ?_, fun hcontra => ?_⟩
    · refine scanStr_of_shape _
        ((sanitizeIdentifierPermission field).data ++ [' ', '=', ' ']) (po + 1)
        (by simp [buildFieldCondition, String.data_append]) ?_
      intro hmem
      rcases List.mem_append.mp hmem with h | h
      · exact no_dollar_sanitizeIdentifierPermission field h
      · simp at h
    · exfalso
      simp only [buildFieldCondition] at hcontra
      rw [String.append_assoc] at hcontra
      have := (append_eq_empty_iff _ _).mp hcontra
      have h2 := (append_eq_empty_iff _ _).mp this.2
      exact absurd h2.1 (by decide)
  | arr elems =>
    refine ⟨by simp [buildFieldCondition], fun _ => ?_, fun hcontra => ?_⟩
    · refine scanStr_of_shape _
        ((sanitizeIdentifierPermission field).data ++ [' ', '=', ' ']) (po + 1)
        (by simp [buildFieldCondition, String.data_append]) ?_
      intro hmem
      rcases List.mem_append.mp hmem with h | h
      · exact no_dollar_sanitizeIdentifierPermission field h
      · simp at h
    · exfalso
      simp only [buildFieldCondition] at hcontra
      rw [String.append_assoc] at hcontra
      have := (append_eq_empty_iff _ _).mp hcontra
      have h2 := (append_eq_empty_iff _ _).mp this.2
      exact absurd h2.1 (by decide)

mutual

/-- `buildConditions` satisfies the placeholder invariant. -/
theorem buildConditions_scan (po : Nat) (l : List (String × JSONValue)) :
    ScanOK po (buildConditions po l) := by
  match l with
  | [] => exact scanOK_nil po
  | (field, value) :: rest =>
    simp only [buildConditions]
    exact scanOK_append (buildConditionsEntry_scan po field value)
      (buildConditions_scan (buildConditionsEntry po field value).2.2 rest)

/-- One `buildConditions` loop iteration satisfies the invariant. -/
theorem buildConditionsEntry_scan (po : Nat) (field : String) (value : JSONValue) :
    ScanOK po (buildConditionsEntry po field value) := by
  by_cases hand : field = "_and"
  · subst hand
    match value with
    | .arr andFilters =>
      have h := collectAnd_scan po andFilters
      obtain ⟨ho, hs⟩ := h
      simp only [buildConditionsEntry]
      split
      · rename_i hemp
        rw [List.isEmpty_iff] at hemp
        rw [hemp] at hs
        have hz := scanSeq_nil_len hs
        refine ⟨?_, scanSeq_nil _⟩
        dsimp only
        simp only [List.length_nil]
        omega
      · refine ⟨ho, scanSeq_single ?_⟩
        refine scanStr_suffix ")" (by decide) rfl ?_
        exact scanStr_prefix "(" (by decide)
          (scanSeq_joinSep " AND " ⟨by simp, by decide, rfl⟩ hs)
    | .str s => exact scanOK_nil po
    | .num n => exact scanOK_nil po
    | .bool b => exact scanOK_nil po
    | .null => exact scanOK_nil po
    | .obj m => exact scanOK_nil po
  · by_cases hor : field = "_or"
    · subst hor
      match value with
      | .arr orFilters =>
        have h := collectOr_scan po orFilters
        obtain ⟨ho, hs⟩ := h
        simp only [buildConditionsEntry]
        split
        · rename_i hemp
          rw [List.isEmpty_iff] at hemp
          rw [hemp] at hs
          have hz := scanSeq_nil_len hs
          refine ⟨?_, scanSeq_nil _⟩
          dsimp only
          simp only [List.length_nil]
          omega
        · refine ⟨ho, scanSeq_single ?_⟩
          refine scanStr_suffix ")" (by decide) rfl ?_
          exact scanStr_prefix "(" (by decide)
            (scanSeq_joinSep " OR " ⟨by simp, by decide, rfl⟩ hs)
      | .str s => exact scanOK_nil po
      | .num n => exact scanOK_nil po
      | .bool b => exact scanOK_nil po
      | .null => exact scanOK_nil po
      | .obj m => exact scanOK_nil po
    · have heq : buildConditionsEntry po field value =
          (if (buildFieldCondition po field value).1 = "" then
            ([], [], (buildFieldCondition po field value).2.2)
          else ([(buildFieldCondition po field value).1],
            (buildFieldCondition po field value).2.1,
            (buildFieldCondition po field value).2.2)) := by
        unfold buildConditionsEntry
        split
        · exact absurd rfl hand
        · exact absurd rfl hor
        · exact absurd rfl hand
        · exact absurd rfl hor
        · rfl
      rw [heq]
      have h := buildFieldCondition_scan po field value
      obtain ⟨ho, hsome, hnone⟩ := h
      split
      · rename_i hemp
        have hz : (buildFieldCondition po field value).2.1 = [] := hnone hemp
        rw [hz] at ho
        refine ⟨?_, scanSeq_nil _⟩
        dsimp only
        simp only [List.length_nil]
        simpa using ho
      · rename_i hne
        exact ⟨ho, scanSeq_single (hsome hne)⟩

/-- The `buildAndConditions` collection loop satisfies the invariant. -/
theorem collectAnd_scan (po : Nat) (l : List JSONValue) :
    ScanOK po (collectAndConditions po l) := by
  match l with
  | [] => exact scanOK_nil po
  | .obj m :: rest =>
    simp only [collectAndConditions]
    exact scanOK_append (buildConditions_scan po m)
      (collectAnd_scan (buildConditions po m).2.2 rest)
  | .str s :: rest => exact collectAnd_scan po rest
  | .num n :: rest => exact collectAnd_scan po rest
  | .bool b :: rest => exact collectAnd_scan po rest
  | .null :: rest => exact collectAnd_scan po rest
  | .arr elems :: rest => exact collectAnd_scan po rest

/-- The `buildOrConditions` collection loop satisfies the invariant. -/
theorem collectOr_scan (po : Nat) (l : List JSONValue) :
    ScanOK po (collectOrConditions po l) := by
  match l with
  | [] => exact scanOK_nil po
  | .obj m :: rest =>
    have h1 := buildConditions_scan po m
    obtain ⟨ho1, hs1⟩ := h1
    have h2 := collectOr_scan (buildConditions po m).2.2 rest
    obtain ⟨ho2, hs2⟩ := h2
    simp only [collectOrConditions]
    split
    · rename_i hemp
      rw [List.isEmpty_iff] at hemp
      rw [hemp] at hs1
      have hz := scanSeq_nil_len hs1
      have hpo : (buildConditions po m).2.2 = po := by omega
      rw [hpo] at ho2 hs2 ⊢
      exact ⟨ho2, hs2⟩
    · refine ⟨?_, ?_⟩
      · dsimp only
        simp only [List.length_append]
        omega
      · dsimp only
        simp only [List.length_append]
        refine scanSeq_cons ?_ ?_
        · refine scanStr_suffix ")" (by decide) rfl ?_
          exact scanStr_prefix "(" (by decide)
            (scanSeq_joinSep " AND " ⟨by simp, by decide, rfl⟩ hs1)
        · have hshift : (buildConditions po m).2.2 + 1 =
              po + 1 + (buildConditions po m).2.1.length := by omega
          rw [hshift] at hs2
          exact hs2
  | .str s :: rest => exact collectOr_scan po rest
  | .num n :: rest => exact collectOr_scan po rest
  | .bool b :: rest => exact collectOr_scan po rest
  | .null :: rest => exact collectOr_scan po rest
  | .arr elems :: rest => exact collectOr_scan po rest

end

/-- C3.  With the builder's counter at `po` (so `k = po + 1`),
`{"_and":[{"a":1},{"b":2}]}` compiles to `(a = $k AND b = $k+1)` with
arguments `[1, 2]`, and `{"_or":[{"a":1},{"a":2}]}` compiles to
`((a = $k) OR (a = $k+1))` with arguments `[1, 2]`.  Moreover, in *every*
compilation the placeholder tokens of the produced SQL are exactly the
contiguous sequence `$(po+1) … $(po+args)` in order of appearance — in
particular sibling and nested clauses never reuse a placeholder
number. -/
theorem C3_filter_builder :
    (∀ po : Nat,
      FilterBuilderBuild po [("_and", .arr [.obj [("a", .num 1)], .obj [("b", .num 2)]])] =
        ("(a = $" ++ Nat.repr (po + 1) ++ " AND b = $" ++ Nat.repr (po + 2) ++ ")",
         [.num 1, .num 2])) ∧
    (∀ po : Nat,
      FilterBuilderBuild po [("_or", .arr [.obj [("a", .num 1)], .obj [("a", .num 2)]])] =
        ("((a = $" ++ Nat.repr (po + 1) ++ ") OR (a = $" ++ Nat.repr (po + 2) ++ "))",
         [.num 1, .num 2])) ∧
    (∀ (po : Nat) (filter : List (String × JSONValue)),
      scanPH (FilterBuilderBuild po filter).1.data =
        phTokens (po + 1) (FilterBuilderBuild po filter).2.length) := by
  refine ⟨?_, ?_, ?_⟩
  · intro po
    have ha : sanitizeIdentifierPermission "a" = "a" := rfl
    have hb : sanitizeIdentifierPermission "b" = "b" := rfl
    simp only [FilterBuilderBuild, buildConditions, buildConditionsEntry,
      collectAndConditions, buildFieldCondition, joinSep, ha, hb,
      append_eq_empty_iff, List.isEmpty_cons, List.isEmpty_nil, List.append_nil,
      List.nil_append, show po + 1 + 1 = po + 2 from rfl]
    simp [append_eq_empty_iff, Prod.mk.injEq]
    refine string_data_ext ?_
    simp [String.data_append]
  · intro po
    have ha : sanitizeIdentifierPermission "a" = "a" := rfl
    simp only [FilterBuilderBuild, buildConditions, buildConditionsEntry,
      collectOrConditions, buildFieldCondition, joinSep, ha,
      append_eq_empty_iff, List.isEmpty_cons, List.isEmpty_nil, List.append_nil,
      List.nil_append, show po + 1 + 1 = po + 2 from rfl]
    simp [append_eq_empty_iff, Prod.mk.injEq]
    refine string_data_ext ?_
    simp [String.data_append]
  · intro po filter
    unfold FilterBuilderBuild
    split
    · simp [scanPH_nil, phTokens_zero]
    · dsimp only
      split
      · simp [scanPH_nil, phTokens_zero]
      · obtain ⟨ho, hs⟩ := buildConditions_scan po filter
        have h2 := scanSeq_joinSep " AND " ⟨by simp, by decide, rfl⟩ hs [] trivial
        simpa [scanPH_nil] using h2

end Tugo
